import Mathlib

/-!
Verification of the `apiary` Honeycomb CLI (Rust) against its
natural-language specification, via a shallow embedding in Lean 4.

The embedding models:
  * `serde_json::Value` as an inductive `Json` type (numbers are modelled as
    integers; floating-point numbers are outside the scope of the embedding),
    together with the compact serializer (`serde_json::to_string`), the
    pretty serializer (`serde_json::to_string_pretty`, two-space indent) and
    the parser (`serde_json::from_str`, modelled as a fuel-bounded
    recursive-descent parser over the same grammar fragment);
  * `src/client.rs`: `HoneycombClient` (header selection in `request`,
    `handle_response`, `delete`);
  * `src/main.rs`: the management/configuration key adoption logic and the
    verbose key-prefix display;
  * `src/auth.rs`: the guarded key-prefix display of `show_key_info`;
  * `src/common.rs`: `validate_environment`, `require_valid_environment`,
    `resolve_team`, `OutputFormat` and its `FromStr`;
  * `src/errors.rs`: the error message constants;
  * `src/queries.rs`: the poll loop of `run_query`;
  * `src/environments.rs` / `src/datasets.rs`: the output rendering of
    `list_environments` and `get_dataset`, including the typed decoding of
    `EnvironmentsResponse` (serde `from_value`) and the fixed-width table.

Rust `&str` values are modelled as Lean `String`; byte-level operations
(`len`, slicing) use UTF-8 byte sizes so that Rust's byte-index slicing
semantics (including the char-boundary panic) are captured.
-/

namespace Apiary

/-- Model of `serde_json::Value`. Numbers are modelled as (unbounded)
integers; objects as association lists in insertion order. -/
inductive Json where
  | null
  | bool (b : Bool)
  | num (n : Int)
  | str (s : String)
  | arr (elems : List Json)
  | obj (fields : List (String × Json))

/-- Model of `serde_json::Map::get` / `Value::get` on an object's field
list: the first binding of the key, if any. -/
def jget (fields : List (String × Json)) (key : String) : Option Json :=
  match fields with
  | [] => none
  | (k, v) :: rest => if k = key then some v else jget rest key

/-- Model of `Value::get(key)`: field lookup on objects, `none` otherwise. -/
def Json.getField (v : Json) (key : String) : Option Json :=
  match v with
  | .obj fields => jget fields key
  | _ => none

/-- Model of `Value::as_bool`. -/
def Json.asBool (v : Json) : Option Bool :=
  match v with
  | .bool b => some b
  | _ => none

/-- Model of `Value::as_str`. -/
def Json.asStr (v : Json) : Option String :=
  match v with
  | .str s => some s
  | _ => none

/-- The decimal digit character for `n < 10` (`'0'` + n). -/
def digitOf (n : Nat) : Char := Char.ofNat (48 + n)

/-- Decimal digits of `n`, most significant first, with explicit fuel
(structural so that the kernel can evaluate it). Any fuel `≥ n` is exact. -/
def natToDigitsAux : Nat → Nat → List Char
  | 0, n => [digitOf n]
  | f+1, n => if n < 10 then [digitOf n] else natToDigitsAux f (n / 10) ++ [digitOf (n % 10)]

/-- Decimal representation of a natural number, as `u64`'s `Display`. -/
def natToDigits (n : Nat) : List Char := natToDigitsAux n n

/-- Decimal representation of an integer, as `i64`'s `Display`
(sign followed by the absolute value). -/
def intChars (i : Int) : List Char :=
  if i < 0 then '-' :: natToDigits i.natAbs else natToDigits i.natAbs

/-- Lowercase hexadecimal digit character for `d < 16`. -/
def hexChar (d : Nat) : Char :=
  if d < 10 then Char.ofNat (48 + d) else Char.ofNat (87 + d)

/-- serde_json's string escaping of a single character: `"` and `\` are
backslash-escaped, the named control escapes are used for backspace,
form-feed, newline, carriage return and tab, other control characters
become `\u00XX` (lowercase hex), and everything else is passed through. -/
def escapeChar (c : Char) : List Char :=
  if c = '"' then ['\\', '"']
  else if c = '\\' then ['\\', '\\']
  else if c = '\x08' then ['\\', 'b']
  else if c = '\x0c' then ['\\', 'f']
  else if c = '\n' then ['\\', 'n']
  else if c = '\r' then ['\\', 'r']
  else if c = '\t' then ['\\', 't']
  else if c.toNat < 32 then ['\\', 'u', '0', '0', hexChar (c.toNat / 16), hexChar (c.toNat % 16)]
  else [c]

/-- serde_json's escaping of a character list (string contents). -/
def escList : List Char → List Char
  | [] => []
  | c :: cs => escapeChar c ++ escList cs

/-- The keyword `null` as characters. -/
def nullChars : List Char := ['n', 'u', 'l', 'l']

/-- The keyword `true` as characters. -/
def trueChars : List Char := ['t', 'r', 'u', 'e']

/-- The keyword `false` as characters. -/
def falseChars : List Char := ['f', 'a', 'l', 's', 'e']

mutual
/-- Model of `serde_json::to_string` (compact serialization), producing a
character list. -/
def printc : Json → List Char
  | .null => nullChars
  | .bool true => trueChars
  | .bool false => falseChars
  | .num i => intChars i
  | .str s => '"' :: (escList s.data ++ ['"'])
  | .arr es => '[' :: (printcItems es ++ [']'])
  | .obj fs => '{' :: (printcFields fs ++ ['}'])
termination_by v => sizeOf v
decreasing_by all_goals (simp; try omega)

/-- Compact serialization of an array's elements, comma separated. -/
def printcItems : List Json → List Char
  | [] => []
  | [e] => printc e
  | e :: es => printc e ++ ',' :: printcItems es
termination_by es => sizeOf es
decreasing_by all_goals (simp; try omega)

/-- Compact serialization of an object's fields, comma separated. -/
def printcFields : List (String × Json) → List Char
  | [] => []
  | [(k, v)] => '"' :: (escList k.data ++ '"' :: ':' :: printc v)
  | (k, v) :: fs => '"' :: (escList k.data ++ '"' :: ':' :: printc v) ++ ',' :: printcFields fs
termination_by fs => sizeOf fs
decreasing_by all_goals (simp; try omega)
end

/-- `n` spaces (pretty-printer indentation). -/
def ind (n : Nat) : List Char := List.replicate n ' '

mutual
/-- Model of `serde_json::to_string_pretty` at indentation level `n`
(two-space indent, as serde's `PrettyFormatter` default). -/
def printp : Nat → Json → List Char
  | _, .null => nullChars
  | _, .bool true => trueChars
  | _, .bool false => falseChars
  | _, .num i => intChars i
  | _, .str s => '"' :: (escList s.data ++ ['"'])
  | _, .arr [] => ['[', ']']
  | n, .arr (e :: es) => '[' :: '\n' :: (printpItems (n + 2) (e :: es) ++ '\n' :: (ind n ++ [']']))
  | _, .obj [] => ['{', '}']
  | n, .obj (f :: fs) => '{' :: '\n' :: (printpFields (n + 2) (f :: fs) ++ '\n' :: (ind n ++ ['}']))
termination_by _ v => sizeOf v
decreasing_by all_goals (simp; try omega)

/-- Pretty serialization of a non-empty array's elements: each on its own
indented line, separated by `",\n"`. -/
def printpItems : Nat → List Json → List Char
  | _, [] => []
  | n, [e] => ind n ++ printp n e
  | n, e :: es => ind n ++ printp n e ++ ',' :: '\n' :: printpItems n es
termination_by _ es => sizeOf es
decreasing_by all_goals (simp; try omega)

/-- Pretty serialization of a non-empty object's fields: each
`"key": value` on its own indented line, separated by `",\n"`. -/
def printpFields : Nat → List (String × Json) → List Char
  | _, [] => []
  | n, [(k, v)] => ind n ++ '"' :: (escList k.data ++ '"' :: ':' :: ' ' :: printp n v)
  | n, (k, v) :: fs =>
      ind n ++ '"' :: (escList k.data ++ '"' :: ':' :: ' ' :: printp n v) ++ ',' :: '\n' :: printpFields n fs
termination_by _ fs => sizeOf fs
decreasing_by all_goals (simp; try omega)
end

/-- Model of `serde_json::to_string` on a `Value`, as a `String`. -/
def to_string (v : Json) : String := ⟨printc v⟩

/-- Model of `common.rs`'s `pretty_print_json` /
`serde_json::to_string_pretty` on a `Value` (always succeeds). -/
def pretty_print_json (v : Json) : String := ⟨printp 0 v⟩

/-- JSON insignificant whitespace. -/
def isWsChar (c : Char) : Bool := c = ' ' || c = '\n' || c = '\t' || c = '\r'

/-- Drop leading JSON whitespace. -/
def skipWs : List Char → List Char
  | [] => []
  | c :: cs => if isWsChar c then skipWs cs else c :: cs

/-- Value of a hexadecimal digit character, if any. -/
def hexVal (c : Char) : Option Nat :=
  if 48 ≤ c.toNat ∧ c.toNat ≤ 57 then some (c.toNat - 48)
  else if 97 ≤ c.toNat ∧ c.toNat ≤ 102 then some (c.toNat - 87)
  else if 65 ≤ c.toNat ∧ c.toNat ≤ 70 then some (c.toNat - 55)
  else none

/-- Unescaping of a single-character JSON escape (after the backslash). -/
def unescapeChar (c : Char) : Option Char :=
  if c = '"' then some '"'
  else if c = '\\' then some '\\'
  else if c = '/' then some '/'
  else if c = 'b' then some '\x08'
  else if c = 'f' then some '\x0c'
  else if c = 'n' then some '\n'
  else if c = 'r' then some '\r'
  else if c = 't' then some '\t'
  else none

/-- Parse the contents of a JSON string after the opening quote, up to and
including the closing quote; returns the unescaped characters and the rest
of the input. The fuel is spent one unit per decoded character, so any
fuel exceeding the input length is enough. -/
def parseStringBody : Nat → List Char → Option (List Char × List Char)
  | 0, _ => none
  | _+1, [] => none
  | f+1, c :: cs =>
    if c = '"' then some ([], cs)
    else if c = '\\' then
      match cs with
      | [] => none
      | e :: cs' =>
        if e = 'u' then
          match cs' with
          | h1 :: h2 :: h3 :: h4 :: cs'' =>
            match hexVal h1, hexVal h2, hexVal h3, hexVal h4 with
            | some a, some b, some c2, some d =>
              match parseStringBody f cs'' with
              | some (l, rest) => some (Char.ofNat (((a * 16 + b) * 16 + c2) * 16 + d) :: l, rest)
              | none => none
            | _, _, _, _ => none
          | _ => none
        else
          match unescapeChar e with
          | some u =>
            match parseStringBody f cs' with
            | some (l, rest) => some (u :: l, rest)
            | none => none
          | none => none
    else
      match parseStringBody f cs with
      | some (l, rest) => some (c :: l, rest)
      | none => none

/-- Consume a maximal run of decimal digits, accumulating their value. -/
def parseDigits : List Char → Nat → Nat × List Char
  | [], acc => (acc, [])
  | c :: cs, acc =>
    if c.isDigit then parseDigits cs (acc * 10 + (c.toNat - 48)) else (acc, c :: cs)

/-- Parse a natural number (at least one digit required). -/
def parseNat : List Char → Option (Nat × List Char)
  | [] => none
  | c :: cs => if c.isDigit then some (parseDigits cs (c.toNat - 48)) else none

/-- Consume an expected literal character sequence. -/
def stripChars : List Char → List Char → Option (List Char)
  | [], cs => some cs
  | _ :: _, [] => none
  | e :: es, c :: cs => if c = e then stripChars es cs else none

mutual
/-- One step of the recursive-descent JSON value parser. Expects its input
to start at a value (no leading whitespace); `fuel` bounds the recursion
(one unit per bracket descent and per list element, so any fuel larger
than the input length is enough). -/
def parseValCore : Nat → List Char → Option (Json × List Char)
  | 0, _ => none
  | _+1, [] => none
  | f+1, c :: cs =>
    if c = 'n' then
      match stripChars ['u', 'l', 'l'] cs with
      | some rest => some (.null, rest)
      | none => none
    else if c = 't' then
      match stripChars ['r', 'u', 'e'] cs with
      | some rest => some (.bool true, rest)
      | none => none
    else if c = 'f' then
      match stripChars ['a', 'l', 's', 'e'] cs with
      | some rest => some (.bool false, rest)
      | none => none
    else if c = '"' then
      match parseStringBody (cs.length + 1) cs with
      | some (l, rest) => some (.str ⟨l⟩, rest)
      | none => none
    else if c = '[' then
      if (skipWs cs).head? = some ']' then some (.arr [], (skipWs cs).tail)
      else
        match parseArrElems f (skipWs cs) with
        | some (es, rest) => some (.arr es, rest)
        | none => none
    else if c = '{' then
      if (skipWs cs).head? = some '}' then some (.obj [], (skipWs cs).tail)
      else
        match parseObjFields f (skipWs cs) with
        | some (fs, rest) => some (.obj fs, rest)
        | none => none
    else if c = '-' then
      match parseNat cs with
      | some (n, rest) => some (.num (-(n : Int)), rest)
      | none => none
    else if c.isDigit then
      match parseNat (c :: cs) with
      | some (n, rest) => some (.num (n : Int), rest)
      | none => none
    else none

/-- Parse the remaining elements of a non-empty array, including the
closing bracket. Skips leading whitespace before each element. -/
def parseArrElems : Nat → List Char → Option (List Json × List Char)
  | 0, _ => none
  | f+1, cs =>
    match parseValCore f (skipWs cs) with
    | none => none
    | some (v, rest) =>
      match skipWs rest with
      | ',' :: rest' =>
        match parseArrElems f rest' with
        | some (vs, rest'') => some (v :: vs, rest'')
        | none => none
      | ']' :: rest' => some ([v], rest')
      | _ => none

/-- Parse the remaining fields of a non-empty object, including the
closing brace. Skips leading whitespace before each key. -/
def parseObjFields : Nat → List Char → Option (List (String × Json) × List Char)
  | 0, _ => none
  | f+1, cs =>
    match skipWs cs with
    | '"' :: cs1 =>
      match parseStringBody (cs1.length + 1) cs1 with
      | none => none
      | some (k, cs2) =>
        match skipWs cs2 with
        | ':' :: cs3 =>
          match parseValCore f (skipWs cs3) with
          | none => none
          | some (v, cs4) =>
            match skipWs cs4 with
            | ',' :: cs5 =>
              match parseObjFields f cs5 with
              | some (fs, rest) => some ((⟨k⟩, v) :: fs, rest)
              | none => none
            | '}' :: cs5 => some ([(⟨k⟩, v)], cs5)
            | _ => none
        | _ => none
    | _ => none
end

/-- Model of `serde_json::from_str::<Value>`: parse one JSON value with
optional surrounding whitespace; anything else left over is an error. The
fuel `2 * length + 2` is always sufficient (the parser spends at most one
unit of fuel per consumed input character). -/
def from_str (s : String) : Option Json :=
  match parseValCore (2 * s.data.length + 2) (skipWs s.data) with
  | some (v, rest) => if skipWs rest = [] then some v else none
  | none => none

/-- A character list is safe to follow a printed number: it does not start
with a digit (so the number parser stops exactly at its end). -/
def numSafe : List Char → Bool
  | [] => true
  | c :: _ => !c.isDigit

mutual
/-- Fuel measure of a JSON value: enough parser fuel to parse its printed
form (one unit per node plus one per list/field chain link). -/
def jsize : Json → Nat
  | .null => 1
  | .bool _ => 1
  | .num _ => 1
  | .str _ => 1
  | .arr es => 1 + lsize es
  | .obj fs => 1 + fsize fs
termination_by v => sizeOf v
decreasing_by all_goals (simp; try omega)

/-- Fuel measure of an array's element list. -/
def lsize : List Json → Nat
  | [] => 1
  | e :: es => 1 + jsize e + lsize es
termination_by es => sizeOf es
decreasing_by all_goals (simp; try omega)

/-- Fuel measure of an object's field list. -/
def fsize : List (String × Json) → Nat
  | [] => 1
  | (_, v) :: fs => 1 + jsize v + fsize fs
termination_by fs => sizeOf fs
decreasing_by all_goals (simp; try omega)
end

/-- Model of Rust `str::starts_with` (byte prefix, which on `&str` values
coincides with character-list prefix). -/
def strStartsWith (s pre : String) : Bool := pre.data.isPrefixOf s.data

/-- Model of Rust `str::contains(char)`. -/
def strContainsChar (s : String) (c : Char) : Bool := s.data.contains c

/-- Model of Rust `str::len` (UTF-8 byte length). -/
def strByteLen (s : String) : Nat := s.data.foldl (fun n c => n + c.utf8Size) 0

/-- Model of `client.rs`'s `HoneycombClient` state (the embedded `reqwest`
client object carries no relevant state). -/
structure HoneycombClient where
  management_key : Option String
  config_key : Option String
  base_url : String

/-- Model of `HoneycombClient::new`: the base URL defaults to the public
API endpoint. -/
def HoneycombClient.new (management_key config_key base_url : Option String) : HoneycombClient :=
  { management_key := management_key
    config_key := config_key
    base_url :=
      match base_url with
      | some u => u
      | none => "https://api.honeycomb.io" }

/-- Model of `HoneycombClient::is_v2_endpoint`. -/
def HoneycombClient.is_v2_endpoint (_c : HoneycombClient) (path : String) : Bool :=
  strStartsWith path "/2/"

/-- The header list a request would be sent with: URL and headers as
name/value pairs. An `Except.error` models the early `return Err(...)`
taken before any HTTP request is sent. -/
structure RequestSpec where
  url : String
  headers : List (String × String)

/-- Model of the header-construction part of `HoneycombClient::request`
(`client.rs` lines 37-91): choose the authentication header from the path
prefix, erroring out (without sending anything) when the needed key is
absent, then add the content-type header. Query parameters and the body do
not interact with authentication and are omitted. -/
def HoneycombClient.request (c : HoneycombClient) (path : String) : Except String RequestSpec :=
  let url := c.base_url ++ path
  if c.is_v2_endpoint path then
    match c.management_key with
    | some management_key =>
        .ok { url := url
              headers := [("Authorization", "Bearer " ++ management_key),
                          ("Content-Type", "application/json")] }
    | none =>
        .error ("v2 endpoint '" ++ path ++ "' requires a Management Key.\n" ++
          "Set HONEYCOMB_MANAGEMENT_API_KEY_ID and HONEYCOMB_MANAGEMENT_API_KEY environment variables.")
  else
    match c.config_key with
    | some config_key =>
        .ok { url := url
              headers := [("X-Honeycomb-Team", config_key),
                          ("Content-Type", "application/json")] }
    | none =>
        .error ("v1 endpoint '" ++ path ++ "' requires a Configuration Key.\n" ++
          "Set HONEYCOMB_CONFIGURATION_API_KEY environment variable.")

/-- A header is an authentication header when it is one of the two
authentication header names used by the client. -/
def isAuthHeader (h : String × String) : Bool :=
  h.1 = "Authorization" || h.1 = "X-Honeycomb-Team"

/-- An HTTP response as seen by `handle_response`: its status code and its
body text. -/
structure HttpResponse where
  status : Nat
  body : String

/-- Model of `reqwest::StatusCode::is_success`: 2xx. -/
def statusIsSuccess (status : Nat) : Bool := 200 ≤ status && status < 300

/-- The error string `handle_response` and `delete` build for a non-2xx
response. (reqwest's status `Display` also appends the canonical reason
phrase after the code; the embedding keeps just the numeric code, which is
what the claims are about.) -/
def statusFailMsg (r : HttpResponse) : String :=
  "Request failed with status " ++ toString r.status ++ ": " ++ r.body

/-- Model of `HoneycombClient::handle_response` (`client.rs` lines
128-142): 2xx with empty body gives `Null`, 2xx with a JSON body gives the
parsed value, 2xx with a malformed body gives a parse error carrying the
body text, and non-2xx gives an error carrying status and body text. The
result of `get`/`post`/`put`/`patch` on a received response is exactly
this function applied to it. -/
def handle_response (r : HttpResponse) : Except String Json :=
  if statusIsSuccess r.status then
    if r.body = "" then .ok .null
    else
      match from_str r.body with
      | some v => .ok v
      | none => .error ("Failed to parse JSON response: " ++ r.body)
  else .error (statusFailMsg r)

/-- Model of the response handling of `HoneycombClient::delete`
(`client.rs` lines 117-126): unit on 2xx, otherwise the same formatted
error as `handle_response`'s non-2xx branch. -/
def delete_response (r : HttpResponse) : Except String Unit :=
  if statusIsSuccess r.status then .ok () else .error (statusFailMsg r)

/-- Model of the management-key determination in `main` (`main.rs` lines
249-261): an id/secret pair is joined with `:`; otherwise the legacy
`--api-key` value is adopted when it looks like a management key. -/
def determine_management_key (management_key_id management_key_secret api_key : Option String) :
    Option String :=
  match management_key_id, management_key_secret with
  | some id, some secret => some (id ++ ":" ++ secret)
  | _, _ =>
    match api_key with
    | some key =>
        if strStartsWith key "hcxmk_" || strStartsWith key "hcamk_" then some key else none
    | none => none

/-- Model of the configuration-key determination in `main` (`main.rs`
lines 263-272): the `--config-key` value wins; otherwise the legacy
`--api-key` value is adopted when it looks like a configuration key. -/
def determine_config_key (config_key api_key : Option String) : Option String :=
  match config_key with
  | some k => some k
  | none =>
    match api_key with
    | some key =>
        if strStartsWith key "hcaik_" || (strByteLen key == 64 && !(strContainsChar key ':'))
        then some key else none
    | none => none

/-- Rust byte slicing `&s[..n]` on the character list of a string: `none`
models the panic (index out of range, or `n` not on a character
boundary). -/
def takeBytes : List Char → Nat → Option (List Char)
  | _, 0 => some []
  | [], _+1 => none
  | c :: cs, n+1 =>
    if c.utf8Size ≤ n + 1 then
      match takeBytes cs (n + 1 - c.utf8Size) with
      | some l => some (c :: l)
      | none => none
    else none

/-- Rust `&s[..n]`: the prefix of `s` holding its first `n` bytes, `none`
when the slice would panic. -/
def str_slice_to (s : String) (n : Nat) : Option String :=
  match takeBytes s.data n with
  | some l => some ⟨l⟩
  | none => none

/-- Model of the verbose key display in `main` (`main.rs` lines 285-291):
`&key[..8]` — panics (`none`) unless the key has at least 8 bytes and
byte 8 is a character boundary. -/
def verbose_key_prefix (key : String) : Option String := str_slice_to key 8

/-- Model of the guarded key display in `auth.rs`'s `show_key_info`
(lines 148-185): `&key[..8.min(key.len())]`. -/
def auth_key_prefix (key : String) : Option String := str_slice_to key (min 8 (strByteLen key))

/-- `errors.rs` `messages::TEAM_REQUIRED`. -/
def TEAM_REQUIRED : String :=
  "Team is required. Use --team flag or set HONEYCOMB_TEAM environment variable."

/-- `errors.rs` `messages::environment_not_found`. -/
def environment_not_found (env team : String) : String :=
  "Environment '" ++ env ++ "' not found in team '" ++ team ++
    "'. Use 'apiary environments list --team " ++ team ++ "' to see available environments."

/-- The innermost checks of `common.rs`'s `validate_environment` (lines
45-54): the `attributes` object has a `slug` string equal to the
environment, or a `name` string equal to it. -/
def attr_matches (attrs : List (String × Json)) (environment : String) : Bool :=
  (match jget attrs "slug" with
   | some (.str slug) => slug = environment
   | _ => false) ||
  (match jget attrs "name" with
   | some (.str name) => name = environment
   | _ => false)

/-- One iteration of the `for env in envs` loop of `validate_environment`
(lines 42-56): the element is an object whose `attributes` object
matches. -/
def env_entry_matches (env : Json) (environment : String) : Bool :=
  match env with
  | .obj env_fields =>
    match jget env_fields "attributes" with
    | some (.obj attrs) => attr_matches attrs environment
    | _ => false
  | _ => false

/-- Model of `common.rs`'s `validate_environment` (lines 32-62) applied to
the JSON the secondary lookup `GET /2/teams/{team}/environments` returned:
true exactly when the response is an object whose `data` array has an
element whose `attributes.slug` or `attributes.name` string equals
`environment` (the early-`return true` loop is `List.any`). -/
def validate_environment (response : Json) (environment : String) : Bool :=
  match response with
  | .obj fields =>
    match jget fields "data" with
    | some (.arr envs) => envs.any (fun env => env_entry_matches env environment)
    | _ => false
  | _ => false

/-- Model of `common.rs`'s `require_valid_environment` (lines 65-77),
given the JSON returned by the secondary lookup: `ok` when the
environment validates, otherwise the `environment_not_found` error. -/
def require_valid_environment (team environment : String) (response : Json) :
    Except String Unit :=
  if validate_environment response environment then .ok ()
  else .error (environment_not_found environment team)

/-- Model of `common.rs`'s `resolve_team` (lines 136-142): the
per-command flag, else the context team, else the `TEAM_REQUIRED`
error. -/
def resolve_team (local_team context_team : Option String) : Except String String :=
  match local_team with
  | some t => .ok t
  | none =>
    match context_team with
    | some t => .ok t
    | none => .error TEAM_REQUIRED

/-- Model of the team resolution inlined in
`EnvironmentCommands::execute` (`environments.rs` lines 116-155):
`team.as_ref().or(global_team.as_ref())`, with the same error text as
`TEAM_REQUIRED`, and the request path of the `list` subcommand built only
after a team resolves — an error means no HTTP request is issued. -/
def environments_list_execute (team global_team : Option String) : Except String String :=
  match (match team with | some t => some t | none => global_team) with
  | some effective_team => .ok ("/2/teams/" ++ effective_team ++ "/environments")
  | none => .error "Team is required. Use --team flag or set HONEYCOMB_TEAM environment variable."

/-- Model of `common.rs`'s `OutputFormat`. -/
inductive OutputFormat where
  | json
  | pretty
  | table
deriving DecidableEq

/-- Model of Rust `str::to_lowercase` (per-character lowering; the keyword
comparisons only involve ASCII). -/
def strToLower (s : String) : String := ⟨s.data.map Char.toLower⟩

/-- Model of `OutputFormat`'s `FromStr` (`common.rs` lines 91-102). -/
def output_format_from_str (s : String) : Except String OutputFormat :=
  if strToLower s = "json" then .ok .json
  else if strToLower s = "pretty" then .ok .pretty
  else if strToLower s = "table" then .ok .table
  else .error "Invalid output format. Use: json, pretty, or table"

/-- Model of the `complete` check of the poll loop in `run_query`
(`queries.rs` line 223): `poll_response.get("complete").and_then(as_bool)`
is `Some(true)`. -/
def pollComplete (v : Json) : Bool :=
  match (v.getField "complete").bind Json.asBool with
  | some b => b
  | none => false

/-- The timeout error of the poll loop (`queries.rs` line 218). -/
def pollTimeoutMsg (timeout : Nat) : String :=
  "Query timed out after " ++ toString timeout ++ " seconds"

/-- Model of the poll loop of `run_query` (`queries.rs` lines 213-239).
`responses i` is the JSON the i-th `GET` of the query-result endpoint
returns; `remaining` is `timeout - elapsed` (the loop exits with the
timeout error exactly when `elapsed >= timeout`, i.e. `remaining = 0`);
each loop iteration sleeps one second, so `elapsed` advances by one per
poll. The second component counts the polls (HTTP `GET`s) performed. -/
def poll_aux (responses : Nat → Json) (timeout : Nat) :
    Nat → Nat → Except String Json × Nat
  | 0, _ => (.error (pollTimeoutMsg timeout), 0)
  | remaining + 1, elapsed =>
    if pollComplete (responses elapsed) then (.ok (responses elapsed), 1)
    else
      let p := poll_aux responses timeout remaining (elapsed + 1)
      (p.1, p.2 + 1)

/-- The poll phase of `run_query` with `wait` enabled: start at
`elapsed = 0`. Returns the command result and the number of polls
performed. -/
def run_query_poll (responses : Nat → Json) (timeout : Nat) : Except String Json × Nat :=
  poll_aux responses timeout timeout 0

/-- Rust `format!("{:<w}", s)`: left-align `s` in a field of width `w`
(pad with spaces on the right; never truncates). -/
def padLeft (s : String) (w : Nat) : String :=
  s ++ ⟨List.replicate (w - s.length) ' '⟩

/-- `environments.rs` `EnvironmentTimestamps`. -/
structure EnvironmentTimestamps where
  created : String
  updated : String

/-- `environments.rs` `EnvironmentSettings`. -/
structure EnvironmentSettings where
  delete_protected : Option Bool
  column_layout : Option String

/-- `environments.rs` `EnvironmentAttributes`. -/
structure EnvironmentAttributes where
  name : String
  slug : String
  description : Option String
  color : Option String
  settings : Option EnvironmentSettings
  timestamps : EnvironmentTimestamps

/-- `environments.rs` `EnvironmentData` (the `links` field only carries a
`self` link and does not appear in any output; it is kept as the raw
optional string). -/
structure EnvironmentData where
  id : String
  attributes : EnvironmentAttributes
  data_type : String
  links : Option String

/-- `environments.rs` `EnvironmentsResponse`. -/
structure EnvironmentsResponse where
  data : List EnvironmentData
  links : Option (Option String)

/-- serde decoding of a required `String` field. -/
def decodeStr (fields : List (String × Json)) (key : String) : Option String :=
  match jget fields key with
  | some (.str s) => some s
  | _ => none

/-- serde decoding of an `Option<String>` field: missing or `null` is
`None`, a string is `Some`, anything else is a decode error. -/
def decodeOptStr (fields : List (String × Json)) (key : String) : Option (Option String) :=
  match jget fields key with
  | none => some none
  | some .null => some none
  | some (.str s) => some (some s)
  | some _ => none

/-- serde decoding of an `Option<bool>` field. -/
def decodeOptBool (fields : List (String × Json)) (key : String) : Option (Option Bool) :=
  match jget fields key with
  | none => some none
  | some .null => some none
  | some (.bool b) => some (some b)
  | some _ => none

/-- serde decoding of `EnvironmentTimestamps`. -/
def decodeTimestamps (v : Json) : Option EnvironmentTimestamps :=
  match v with
  | .obj fields =>
    match decodeStr fields "created", decodeStr fields "updated" with
    | some created, some updated => some { created := created, updated := updated }
    | _, _ => none
  | _ => none

/-- serde decoding of `EnvironmentSettings`. -/
def decodeSettings (v : Json) : Option EnvironmentSettings :=
  match v with
  | .obj fields =>
    match decodeOptBool fields "delete_protected", decodeOptStr fields "column_layout" with
    | some dp, some cl => some { delete_protected := dp, column_layout := cl }
    | _, _ => none
  | _ => none

/-- serde decoding of `Option<EnvironmentSettings>`. -/
def decodeOptSettings (fields : List (String × Json)) (key : String) :
    Option (Option EnvironmentSettings) :=
  match jget fields key with
  | none => some none
  | some .null => some none
  | some v =>
    match decodeSettings v with
    | some s => some (some s)
    | none => none

/-- serde decoding of `EnvironmentAttributes`. -/
def decodeAttributes (v : Json) : Option EnvironmentAttributes :=
  match v with
  | .obj fields =>
    match decodeStr fields "name", decodeStr fields "slug",
          decodeOptStr fields "description", decodeOptStr fields "color",
          decodeOptSettings fields "settings",
          (jget fields "timestamps").bind decodeTimestamps with
    | some name, some slug, some description, some color, some settings, some timestamps =>
        some { name := name, slug := slug, description := description, color := color,
               settings := settings, timestamps := timestamps }
    | _, _, _, _, _, _ => none
  | _ => none

/-- serde decoding of the optional `links` object of an environment
(`{"self": ...}`). -/
def decodeSelfLink (fields : List (String × Json)) : Option (Option String) :=
  match jget fields "links" with
  | none => some none
  | some .null => some none
  | some (.obj l) =>
    match decodeStr l "self" with
    | some s => some (some s)
    | none => none
  | some _ => none

/-- serde decoding of `EnvironmentData`. -/
def decodeEnvironmentData (v : Json) : Option EnvironmentData :=
  match v with
  | .obj fields =>
    match decodeStr fields "id", (jget fields "attributes").bind decodeAttributes,
          decodeStr fields "type", decodeSelfLink fields with
    | some id, some attributes, some data_type, some links =>
        some { id := id, attributes := attributes, data_type := data_type, links := links }
    | _, _, _, _ => none
  | _ => none

/-- serde decoding of a list, failing when any element fails. -/
def decodeList {α : Type} (dec : Json → Option α) : List Json → Option (List α)
  | [] => some []
  | v :: vs =>
    match dec v, decodeList dec vs with
    | some a, some as_ => some (a :: as_)
    | _, _ => none

/-- serde decoding of the optional `links` object of the response
(`{"next": ...}`). -/
def decodeRespLinks (fields : List (String × Json)) : Option (Option (Option String)) :=
  match jget fields "links" with
  | none => some none
  | some .null => some none
  | some (.obj l) =>
    match decodeOptStr l "next" with
    | some n => some (some n)
    | none => none
  | some _ => none

/-- Model of `serde_json::from_value::<EnvironmentsResponse>`. -/
def decodeEnvironmentsResponse (v : Json) : Option EnvironmentsResponse :=
  match v with
  | .obj fields =>
    match jget fields "data", decodeRespLinks fields with
    | some (.arr vs), some links =>
      match decodeList decodeEnvironmentData vs with
      | some data => some { data := data, links := links }
      | none => none
    | _, _ => none
  | _ => none

/-- One row of the environments table (`environments.rs` lines 182-195). -/
def envTableRow (e : EnvironmentData) : String :=
  let color := match e.attributes.color with
               | some c => c
               | none => "N/A"
  padLeft e.id 35 ++ " " ++ padLeft e.attributes.name 15 ++ " " ++
    padLeft e.attributes.slug 25 ++ " " ++ padLeft color 12 ++ " " ++
    e.attributes.timestamps.created

/-- The bespoke fixed-width environments table (`environments.rs` lines
176-195): header, dash rule, one row per environment; each `println!`
ends its line with a newline. -/
def envTable (er : EnvironmentsResponse) : String :=
  padLeft "ID" 35 ++ " " ++ padLeft "Name" 15 ++ " " ++ padLeft "Slug" 25 ++ " " ++
    padLeft "Color" 12 ++ " Created\n" ++
  ⟨List.replicate 95 '-'⟩ ++ "\n" ++
  String.join (er.data.map fun e => envTableRow e ++ "\n")

/-- Model of the output of `list_environments` (`environments.rs` lines
157-203) as a function of the response and the format: compact JSON,
pretty JSON, or the bespoke table (falling back to pretty JSON when the
response does not decode as `EnvironmentsResponse`). -/
def list_environments_output (response : Json) (format : OutputFormat) : String :=
  match format with
  | .json => to_string response ++ "\n"
  | .pretty => pretty_print_json response ++ "\n"
  | .table =>
    match decodeEnvironmentsResponse response with
    | some er => envTable er
    | none => pretty_print_json response ++ "\n"

/-- Model of the output of `get_dataset` (`datasets.rs` lines 168-182) as
a function of the response and the format: `Json` prints compact JSON,
while `Pretty | Table` both print pretty JSON. -/
def get_dataset_output (response : Json) (format : OutputFormat) : String :=
  match format with
  | .json => to_string response ++ "\n"
  | .pretty | .table => pretty_print_json response ++ "\n"

/-! ## Helper lemmas -/

theorem String_mk_data (s : String) : (⟨s.data⟩ : String) = s := by
  cases s
  rfl

/-! ## C1: authentication header selection in `request` -/

/-- C1: for every request path `p`, `HoneycombClient::request` attaches
exactly one authentication header chosen by prefix: when `p` starts with
`/2/` and a management key is present it sets
`Authorization: Bearer <management key>`; when `p` does not start with
`/2/` and a configuration key is present it sets
`X-Honeycomb-Team: <configuration key>`; and when the key required for
`p`'s version is absent, `request` returns an error naming the required
key without producing any request to send. -/
theorem C1_request_auth_header (c : HoneycombClient) (path : String) :
    (c.is_v2_endpoint path = strStartsWith path "/2/") ∧
    (c.is_v2_endpoint path = true →
      (∀ k, c.management_key = some k →
        ∃ spec, c.request path = .ok spec ∧
          spec.headers.filter isAuthHeader = [("Authorization", "Bearer " ++ k)]) ∧
      (c.management_key = none →
        c.request path = .error ("v2 endpoint '" ++ path ++ "' requires a Management Key.\n" ++
          "Set HONEYCOMB_MANAGEMENT_API_KEY_ID and HONEYCOMB_MANAGEMENT_API_KEY environment variables."))) ∧
    (c.is_v2_endpoint path = false →
      (∀ k, c.config_key = some k →
        ∃ spec, c.request path = .ok spec ∧
          spec.headers.filter isAuthHeader = [("X-Honeycomb-Team", k)]) ∧
      (c.config_key = none →
        c.request path = .error ("v1 endpoint '" ++ path ++ "' requires a Configuration Key.\n" ++
          "Set HONEYCOMB_CONFIGURATION_API_KEY environment variable."))) := by
  refine ⟨rfl, fun hv2 => ⟨fun k hk => ?_, fun hk => ?_⟩, fun hv1 => ⟨fun k hk => ?_, fun hk => ?_⟩⟩
  · have hreq : c.request path = .ok ⟨c.base_url ++ path,
        [("Authorization", "Bearer " ++ k), ("Content-Type", "application/json")]⟩ := by
      simp [HoneycombClient.request, hv2, hk]
    exact ⟨_, hreq, by simp [List.filter, isAuthHeader]⟩
  · simp [HoneycombClient.request, hv2, hk]
  · have hreq : c.request path = .ok ⟨c.base_url ++ path,
        [("X-Honeycomb-Team", k), ("Content-Type", "application/json")]⟩ := by
      simp [HoneycombClient.request, hv1, hk]
    exact ⟨_, hreq, by simp [List.filter, isAuthHeader]⟩
  · simp [HoneycombClient.request, hv1, hk]

/-- Witness for C1 at concrete clients and paths. -/
theorem C1_request_auth_header_witness :
    (∃ spec, (HoneycombClient.new (some "mgmt") (some "conf") none).request "/2/auth" = .ok spec ∧
      spec.headers.filter isAuthHeader = [("Authorization", "Bearer " ++ "mgmt")]) ∧
    (∃ spec, (HoneycombClient.new (some "mgmt") (some "conf") none).request "/1/datasets" = .ok spec ∧
      spec.headers.filter isAuthHeader = [("X-Honeycomb-Team", "conf")]) ∧
    (HoneycombClient.new none (some "conf") none).request "/2/auth" =
      .error ("v2 endpoint '" ++ "/2/auth" ++ "' requires a Management Key.\n" ++
        "Set HONEYCOMB_MANAGEMENT_API_KEY_ID and HONEYCOMB_MANAGEMENT_API_KEY environment variables.") ∧
    (HoneycombClient.new (some "mgmt") none none).request "/1/datasets" =
      .error ("v1 endpoint '" ++ "/1/datasets" ++ "' requires a Configuration Key.\n" ++
        "Set HONEYCOMB_CONFIGURATION_API_KEY environment variable.") :=
  ⟨((C1_request_auth_header _ "/2/auth").2.1 (by decide)).1 "mgmt" rfl,
   ((C1_request_auth_header _ "/1/datasets").2.2 (by decide)).1 "conf" rfl,
   ((C1_request_auth_header _ "/2/auth").2.1 (by decide)).2 rfl,
   ((C1_request_auth_header _ "/1/datasets").2.2 (by decide)).2 rfl⟩

/-! ## C6: team resolution -/

/-- C6: the team resolves by falling back from the per-command `--team`
flag to the globally supplied team; when both are absent the command
fails with the `Team is required` message, and (for the environments
`list` subcommand, whose request path is built only after resolution) no
HTTP request is issued. -/
theorem C6_team_resolution (team global_team : Option String) :
    (∀ t, team = some t →
      resolve_team team global_team = .ok t ∧
      environments_list_execute team global_team = .ok ("/2/teams/" ++ t ++ "/environments")) ∧
    (team = none → ∀ g, global_team = some g →
      resolve_team team global_team = .ok g ∧
      environments_list_execute team global_team = .ok ("/2/teams/" ++ g ++ "/environments")) ∧
    (team = none → global_team = none →
      resolve_team team global_team = .error TEAM_REQUIRED ∧
      environments_list_execute team global_team = .error TEAM_REQUIRED) := by
  refine ⟨fun t ht => ?_, fun ht g hg => ?_, fun ht hg => ?_⟩
  · subst ht
    exact ⟨rfl, rfl⟩
  · subst ht; subst hg
    exact ⟨rfl, rfl⟩
  · subst ht; subst hg
    exact ⟨rfl, rfl⟩

/-- Witness for C6 at concrete flag/global combinations. -/
theorem C6_team_resolution_witness :
    (resolve_team (some "local") (some "global") = .ok "local" ∧
      environments_list_execute (some "local") (some "global") =
        .ok ("/2/teams/" ++ "local" ++ "/environments")) ∧
    (resolve_team none (some "global") = .ok "global" ∧
      environments_list_execute none (some "global") =
        .ok ("/2/teams/" ++ "global" ++ "/environments")) ∧
    (resolve_team none none = .error TEAM_REQUIRED ∧
      environments_list_execute none none = .error TEAM_REQUIRED) :=
  ⟨(C6_team_resolution (some "local") (some "global")).1 "local" rfl,
   (C6_team_resolution none (some "global")).2.1 rfl "global" rfl,
   (C6_team_resolution none none).2.2 rfl rfl⟩

/-! ## C8: legacy api-key adoption -/

/-- C8: when no management id/secret pair is given, the legacy `--api-key`
value `k` is adopted as the management key exactly when it starts with
`hcxmk_` or `hcamk_`; when no `--config-key` is given, `k` is adopted as
the configuration key exactly when it starts with `hcaik_` or is 64 bytes
long without a `:`; hence a 64-byte colon-free `hcxmk_`-prefixed key is
adopted as both keys simultaneously. -/
theorem C8_legacy_key_adoption (management_key_id management_key_secret : Option String)
    (key : String) :
    (management_key_id = none ∨ management_key_secret = none →
      (determine_management_key management_key_id management_key_secret (some key) = some key ↔
        (strStartsWith key "hcxmk_" || strStartsWith key "hcamk_") = true)) ∧
    (determine_config_key none (some key) = some key ↔
      (strStartsWith key "hcaik_" || (strByteLen key == 64 && !strContainsChar key ':')) = true) ∧
    (strStartsWith key "hcxmk_" = true → strByteLen key = 64 → strContainsChar key ':' = false →
      determine_management_key none none (some key) = some key ∧
      determine_config_key none (some key) = some key) := by
  refine ⟨fun h => ?_, ?_, fun h1 h2 h3 => ?_⟩
  · have hred : determine_management_key management_key_id management_key_secret (some key) =
        (if strStartsWith key "hcxmk_" || strStartsWith key "hcamk_" then some key else none) := by
      rcases h with h | h
      · subst h
        cases management_key_secret <;> simp [determine_management_key]
      · subst h
        cases management_key_id <;> simp [determine_management_key]
    rw [hred]
    by_cases hc : (strStartsWith key "hcxmk_" || strStartsWith key "hcamk_") = true
    · simp [hc]
    · simp only [Bool.not_eq_true] at hc
      simp [hc]
  · by_cases hc : (strStartsWith key "hcaik_" ||
        (strByteLen key == 64 && !strContainsChar key ':')) = true
    · simp [determine_config_key, hc]
    · simp only [Bool.not_eq_true] at hc
      simp [determine_config_key, hc]
  · constructor
    · simp [determine_management_key, h1]
    · simp [determine_config_key, h1, h2, h3]

/-- Witness for C8: a 64-byte colon-free key with the `hcxmk_` prefix is
adopted both as the management key and as the configuration key. -/
theorem C8_legacy_key_adoption_witness :
    determine_management_key none none
        (some "hcxmk_aaaaaaaaaaaaaaaaaaaaaaaaaaaaaaaaaaaaaaaaaaaaaaaaaaaaaaaaaa") =
      some "hcxmk_aaaaaaaaaaaaaaaaaaaaaaaaaaaaaaaaaaaaaaaaaaaaaaaaaaaaaaaaaa" ∧
    determine_config_key none
        (some "hcxmk_aaaaaaaaaaaaaaaaaaaaaaaaaaaaaaaaaaaaaaaaaaaaaaaaaaaaaaaaaa") =
      some "hcxmk_aaaaaaaaaaaaaaaaaaaaaaaaaaaaaaaaaaaaaaaaaaaaaaaaaaaaaaaaaa" :=
  (C8_legacy_key_adoption none none
    "hcxmk_aaaaaaaaaaaaaaaaaaaaaaaaaaaaaaaaaaaaaaaaaaaaaaaaaaaaaaaaaa").2.2
    (by decide) (by decide) (by decide)

/-! ## C4: the poll loop of `run_query` -/

theorem poll_aux_timeout (responses : Nat → Json) (timeout : Nat) :
    ∀ remaining elapsed,
      (∀ i, i < remaining → pollComplete (responses (elapsed + i)) = false) →
      poll_aux responses timeout remaining elapsed =
        (.error (pollTimeoutMsg timeout), remaining) := by
  intro remaining
  induction remaining with
  | zero => intro elapsed _; rfl
  | succ r ih =>
    intro elapsed h
    have h0 : pollComplete (responses elapsed) = false := by
      have := h 0 (by omega)
      simpa using this
    have hrest : ∀ i, i < r → pollComplete (responses (elapsed + 1 + i)) = false := by
      intro i hi
      have := h (i + 1) (by omega)
      rwa [show elapsed + (i + 1) = elapsed + 1 + i by omega] at this
    simp [poll_aux, h0, ih (elapsed + 1) hrest]

theorem poll_aux_complete (responses : Nat → Json) (timeout : Nat) :
    ∀ j remaining elapsed, j < remaining →
      pollComplete (responses (elapsed + j)) = true →
      (∀ i, i < j → pollComplete (responses (elapsed + i)) = false) →
      poll_aux responses timeout remaining elapsed =
        (.ok (responses (elapsed + j)), j + 1) := by
  intro j
  induction j with
  | zero =>
    intro remaining elapsed hlt hc _
    obtain ⟨r, rfl⟩ : ∃ r, remaining = r + 1 := ⟨remaining - 1, by omega⟩
    simp only [Nat.add_zero] at hc
    simp [poll_aux, hc]
  | succ j ih =>
    intro remaining elapsed hlt hc hprev
    obtain ⟨r, rfl⟩ : ∃ r, remaining = r + 1 := ⟨remaining - 1, by omega⟩
    have h0 : pollComplete (responses elapsed) = false := by
      have := hprev 0 (by omega)
      simpa using this
    have hc' : pollComplete (responses (elapsed + 1 + j)) = true := by
      rwa [show elapsed + 1 + j = elapsed + (j + 1) by omega]
    have hprev' : ∀ i, i < j → pollComplete (responses (elapsed + 1 + i)) = false := by
      intro i hi
      have := hprev (i + 1) (by omega)
      rwa [show elapsed + (i + 1) = elapsed + 1 + i by omega] at this
    have heq := ih r (elapsed + 1) (by omega) hc' hprev'
    rw [show elapsed + 1 + j = elapsed + (j + 1) by omega] at heq
    simp [poll_aux, h0, heq]

theorem poll_aux_count_le (responses : Nat → Json) (timeout : Nat) :
    ∀ remaining elapsed, (poll_aux responses timeout remaining elapsed).2 ≤ remaining := by
  intro remaining
  induction remaining with
  | zero => intro _; simp [poll_aux]
  | succ r ih =>
    intro elapsed
    by_cases hc : pollComplete (responses elapsed) = true
    · simp [poll_aux, hc]
    · simp only [Bool.not_eq_true] at hc
      simp only [poll_aux, hc, if_false, Bool.false_eq_true]
      have := ih (elapsed + 1)
      omega

/-- C4: with `wait` enabled, the poll loop of `run_query` performs at most
`timeout` polls (one per elapsed second, the fixed one-second sleep being
modelled as one tick of `elapsed` per iteration); it succeeds with the
first polled response whose `complete` field is true; when no poll within
the timeout is complete it fails with the timed-out error after exactly
`timeout` polls; and with `timeout = 0` it fails before any poll. -/
theorem C4_run_query_poll (responses : Nat → Json) (timeout : Nat) :
    (run_query_poll responses timeout).2 ≤ timeout ∧
    (∀ j, j < timeout → pollComplete (responses j) = true →
      (∀ i, i < j → pollComplete (responses i) = false) →
      run_query_poll responses timeout = (.ok (responses j), j + 1)) ∧
    ((∀ i, i < timeout → pollComplete (responses i) = false) →
      run_query_poll responses timeout = (.error (pollTimeoutMsg timeout), timeout)) ∧
    (timeout = 0 → run_query_poll responses timeout = (.error (pollTimeoutMsg 0), 0)) := by
  refine ⟨poll_aux_count_le responses timeout timeout 0, fun j hj hc hprev => ?_, fun h => ?_,
    fun h0 => ?_⟩
  · have := poll_aux_complete responses timeout j timeout 0 hj (by simpa using hc)
      (by simpa using hprev)
    simpa [run_query_poll] using this
  · have := poll_aux_timeout responses timeout timeout 0 (by simpa using h)
    simpa [run_query_poll] using this
  · subst h0
    rfl

/-- Witness for C4: an immediately-complete response is returned after one
poll; a never-complete response times out after exactly `timeout` polls;
a zero timeout fails with no poll. -/
theorem C4_run_query_poll_witness :
    run_query_poll (fun _ => Json.obj [("complete", Json.bool true)]) 3 =
      (.ok (Json.obj [("complete", Json.bool true)]), 1) ∧
    run_query_poll (fun _ => Json.obj [("complete", Json.bool false)]) 2 =
      (.error (pollTimeoutMsg 2), 2) ∧
    run_query_poll (fun _ => Json.null) 0 = (.error (pollTimeoutMsg 0), 0) :=
  ⟨(C4_run_query_poll (fun _ => Json.obj [("complete", Json.bool true)]) 3).2.1 0 (by omega)
      (by decide) (fun i hi => absurd hi (by omega)),
   (C4_run_query_poll (fun _ => Json.obj [("complete", Json.bool false)]) 2).2.2.1
      (fun i _ => by decide),
   (C4_run_query_poll (fun _ => Json.null) 0).2.2.2 rfl⟩

/-! ## C10: empty and malformed 2xx bodies -/

/-- C10: for every 2xx response with an empty body, `handle_response`
(hence `get`/`post`/`put`/`patch`) returns JSON `Null`; for every 2xx
response whose body is non-empty but not valid JSON, it returns an error
whose message includes that body text. -/
theorem C10_degenerate_bodies (status : Nat) (body : String) :
    (statusIsSuccess status = true → handle_response ⟨status, ""⟩ = .ok .null) ∧
    (statusIsSuccess status = true → body ≠ "" → from_str body = none →
      handle_response ⟨status, body⟩ =
        .error ("Failed to parse JSON response: " ++ body)) := by
  constructor
  · intro hs
    simp [handle_response, hs]
  · intro hs hb hp
    simp [handle_response, hs, hb, hp]

/-- Witness for C10 at status 200 with an empty and a malformed body. -/
theorem C10_degenerate_bodies_witness :
    statusIsSuccess 200 = true ∧ from_str "не JSON" = none ∧
    handle_response ⟨200, ""⟩ = .ok .null ∧
    handle_response ⟨200, "не JSON"⟩ =
      .error ("Failed to parse JSON response: " ++ "не JSON") :=
  ⟨by decide, rfl,
   (C10_degenerate_bodies 200 "").1 (by decide),
   (C10_degenerate_bodies 200 "не JSON").2 (by decide) (by decide) rfl⟩

/-! ## C2: success of client operations vs. response status -/

/-- Counterexample to C2 as stated: a 2xx response whose body is not valid
JSON makes `handle_response` (hence `get`/`post`/`put`/`patch`) fail, so
the operations do not succeed exactly when the status is 2xx. -/
theorem C2_counterexample :
    statusIsSuccess 200 = true ∧
    handle_response ⟨200, "oops"⟩ = .error ("Failed to parse JSON response: " ++ "oops") :=
  ⟨by decide, rfl⟩

/-- C2 (amended): `get`/`post`/`put`/`patch` (via `handle_response`)
succeed exactly when the status is 2xx and the body is empty or valid
JSON; `delete` succeeds exactly when the status is 2xx; and on any
non-2xx status both return an error carrying the HTTP status and the
response body text. -/
theorem C2_amended_response_success (r : HttpResponse) :
    ((∃ v, handle_response r = .ok v) ↔
      statusIsSuccess r.status = true ∧ (r.body = "" ∨ (from_str r.body).isSome = true)) ∧
    (delete_response r = .ok () ↔ statusIsSuccess r.status = true) ∧
    (statusIsSuccess r.status = false →
      handle_response r = .error (statusFailMsg r) ∧
      delete_response r = .error (statusFailMsg r)) := by
  refine ⟨?_, ?_, fun hs => ?_⟩
  · by_cases hs : statusIsSuccess r.status = true
    · by_cases hb : r.body = ""
      · simp [handle_response, hs, hb]
      · cases hp : from_str r.body with
        | none => simp [handle_response, hs, hb, hp]
        | some v => simp [handle_response, hs, hb, hp]
    · simp only [Bool.not_eq_true] at hs
      simp [handle_response, hs]
  · by_cases hs : statusIsSuccess r.status = true
    · simp [delete_response, hs]
    · simp only [Bool.not_eq_true] at hs
      simp [delete_response, hs]
  · constructor
    · simp [handle_response, hs]
    · simp [delete_response, hs]

/-- Witness for C2 (amended) at concrete responses: a 2xx JSON body
succeeds, a 2xx `delete` succeeds, and a 404 fails with the
status-and-body error. -/
theorem C2_amended_response_success_witness :
    (∃ v, handle_response ⟨200, "[]"⟩ = .ok v) ∧
    delete_response ⟨204, ""⟩ = .ok () ∧
    handle_response ⟨404, "not found"⟩ = .error (statusFailMsg ⟨404, "not found"⟩) ∧
    delete_response ⟨404, "not found"⟩ = .error (statusFailMsg ⟨404, "not found"⟩) :=
  ⟨(C2_amended_response_success ⟨200, "[]"⟩).1.mpr ⟨by decide, Or.inr rfl⟩,
   (C2_amended_response_success ⟨204, ""⟩).2.1.mpr (by decide),
   ((C2_amended_response_success ⟨404, "not found"⟩).2.2 (by decide)).1,
   ((C2_amended_response_success ⟨404, "not found"⟩).2.2 (by decide)).2⟩

/-! ## C5: the three rendering modes -/

/-- Counterexample to C5 as stated: for the `datasets get` command, table
mode does not print a bespoke fixed-width table — it prints exactly the
same pretty-printed JSON as pretty mode. -/
theorem C5_counterexample :
    get_dataset_output (Json.obj []) .table = pretty_print_json (Json.obj []) ++ "\n" ∧
    get_dataset_output (Json.obj []) .table = get_dataset_output (Json.obj []) .pretty :=
  ⟨rfl, rfl⟩

/-- C5 (amended): the `--format` flag selects among exactly three modes
(json, pretty, table, case-insensitively; anything else is rejected);
json prints the response as compact JSON and pretty as pretty-printed
JSON, while table prints a bespoke fixed-width ASCII table only for the
commands that implement one (such as `environments list`, which falls
back to pretty JSON when the response does not decode); for the other
commands (such as `datasets get`) table mode prints pretty JSON. -/
theorem C5_amended_render_modes (v : Json) :
    (output_format_from_str "json" = .ok .json ∧
     output_format_from_str "pretty" = .ok .pretty ∧
     output_format_from_str "table" = .ok .table ∧
     output_format_from_str "yaml" =
       .error "Invalid output format. Use: json, pretty, or table" ∧
     (∀ fmt : OutputFormat, fmt = .json ∨ fmt = .pretty ∨ fmt = .table)) ∧
    (get_dataset_output v .json = to_string v ++ "\n" ∧
     get_dataset_output v .pretty = pretty_print_json v ++ "\n" ∧
     get_dataset_output v .table = pretty_print_json v ++ "\n") ∧
    (list_environments_output v .json = to_string v ++ "\n" ∧
     list_environments_output v .pretty = pretty_print_json v ++ "\n" ∧
     (∀ er, decodeEnvironmentsResponse v = some er →
        list_environments_output v .table = envTable er) ∧
     (decodeEnvironmentsResponse v = none →
        list_environments_output v .table = pretty_print_json v ++ "\n")) := by
  refine ⟨⟨rfl, rfl, rfl, rfl, fun fmt => ?_⟩, ⟨rfl, rfl, rfl⟩,
    ⟨rfl, rfl, fun er her => ?_, fun hn => ?_⟩⟩
  · cases fmt
    · exact Or.inl rfl
    · exact Or.inr (Or.inl rfl)
    · exact Or.inr (Or.inr rfl)
  · simp [list_environments_output, her]
  · simp [list_environments_output, hn]

/-- Witness for C5 (amended): a decodable environments response renders in
table mode as the bespoke table. -/
theorem C5_amended_render_modes_witness :
    list_environments_output
      (Json.obj [("data", Json.arr [Json.obj
        [("id", Json.str "env1"),
         ("attributes", Json.obj
           [("name", Json.str "Production"), ("slug", Json.str "production"),
            ("timestamps", Json.obj
              [("created", Json.str "2024-01-01"), ("updated", Json.str "2024-01-02")])]),
         ("type", Json.str "environment")]])])
      .table =
    envTable ⟨[⟨"env1", ⟨"Production", "production", none, none, none,
      ⟨"2024-01-01", "2024-01-02"⟩⟩, "environment", none⟩], none⟩ :=
  (C5_amended_render_modes _).2.2.2.2.1 _ rfl

/-! ## C9: key-prefix display and byte slicing -/

theorem foldl_utf8_acc (l : List Char) :
    ∀ a, l.foldl (fun n c => n + c.utf8Size) a = a + (l.map Char.utf8Size).sum := by
  induction l with
  | nil => intro a; simp
  | cons c l ih =>
    intro a
    simp only [List.foldl_cons, List.map_cons, List.sum_cons]
    rw [ih (a + c.utf8Size)]
    omega

theorem strByteLen_eq_sum (s : String) : strByteLen s = (s.data.map Char.utf8Size).sum := by
  simpa using foldl_utf8_acc s.data 0

theorem takeBytes_short (l : List Char) :
    ∀ n, (l.map Char.utf8Size).sum < n → takeBytes l n = none := by
  induction l with
  | nil =>
    intro n h
    simp only [List.map_nil, List.sum_nil] at h
    obtain ⟨m, rfl⟩ : ∃ m, n = m + 1 := ⟨n - 1, by omega⟩
    rfl
  | cons c l ih =>
    intro n h
    simp only [List.map_cons, List.sum_cons] at h
    obtain ⟨m, rfl⟩ : ∃ m, n = m + 1 := ⟨n - 1, by omega⟩
    by_cases hle : c.utf8Size ≤ m + 1
    · have : (l.map Char.utf8Size).sum < m + 1 - c.utf8Size := by omega
      simp [takeBytes, hle, ih _ this]
    · simp [takeBytes, hle]

theorem takeBytes_exact (l : List Char) : takeBytes l ((l.map Char.utf8Size).sum) = some l := by
  induction l with
  | nil => rfl
  | cons c l ih =>
    have hpos := Char.utf8Size_pos c
    obtain ⟨m, hm⟩ : ∃ m, ((c :: l).map Char.utf8Size).sum = m + 1 :=
      ⟨((c :: l).map Char.utf8Size).sum - 1, by simp; omega⟩
    simp only [List.map_cons, List.sum_cons] at hm
    have h1 : c.utf8Size ≤ m + 1 := by omega
    have h2 : m + 1 - c.utf8Size = (l.map Char.utf8Size).sum := by omega
    simp only [List.map_cons, List.sum_cons, hm]
    simp [takeBytes, h1, h2, ih]

theorem takeBytes_ascii (l : List Char) :
    ∀ n, (∀ c ∈ l, c.utf8Size = 1) → n ≤ l.length → ∃ t, takeBytes l n = some t := by
  induction l with
  | nil =>
    intro n _ hn
    have : n = 0 := by simpa using hn
    subst this
    exact ⟨[], rfl⟩
  | cons c l ih =>
    intro n hall hn
    cases n with
    | zero => exact ⟨[], rfl⟩
    | succ m =>
      have hc : c.utf8Size = 1 := hall c (by simp)
      have hle : c.utf8Size ≤ m + 1 := by omega
      obtain ⟨t, ht⟩ := ih m (fun d hd => hall d (by simp [hd])) (by simpa using hn)
      have harg : m + 1 - c.utf8Size = m := by omega
      refine ⟨c :: t, ?_⟩
      simp [takeBytes, hle, harg, ht]

theorem sum_utf8_ascii (l : List Char) (h : ∀ c ∈ l, c.utf8Size = 1) :
    (l.map Char.utf8Size).sum = l.length := by
  induction l with
  | nil => rfl
  | cons c l ih =>
    simp only [List.map_cons, List.sum_cons, List.length_cons]
    rw [h c (by simp), ih (fun d hd => h d (by simp [hd]))]
    omega

/-- Counterexample to C9 as stated: the min-guarded display in `show_key_info`
is not panic-free for every key — on a non-ASCII key of at least 8 bytes
whose 8th byte falls inside a character, `&key[..8.min(key.len())]` still
panics (modelled as `none`). -/
theorem C9_counterexample : auth_key_prefix "aééééééé" = none := rfl

/-- C9 (amended): the verbose startup display `&key[..8]` panics for every
key shorter than 8 bytes; the `8.min(key.len())` guard in the auth info
command removes exactly the short-key panic — it never panics on a key
shorter than 8 bytes (returning the whole key) nor on any all-ASCII key,
though it can still panic on a longer non-ASCII key whose 8th byte is not
a character boundary. -/
theorem C9_amended_key_prefix_display (key : String) :
    (strByteLen key < 8 → verbose_key_prefix key = none) ∧
    (strByteLen key < 8 → auth_key_prefix key = some key) ∧
    ((∀ c ∈ key.data, c.utf8Size = 1) → ∃ s, auth_key_prefix key = some s) := by
  refine ⟨fun h => ?_, fun h => ?_, fun h => ?_⟩
  · rw [strByteLen_eq_sum] at h
    unfold verbose_key_prefix str_slice_to
    rw [takeBytes_short key.data 8 h]
  · have hmin : min 8 (strByteLen key) = strByteLen key := by omega
    unfold auth_key_prefix str_slice_to
    rw [hmin, strByteLen_eq_sum, takeBytes_exact]
  · have hle : min 8 (strByteLen key) ≤ key.data.length := by
      rw [strByteLen_eq_sum, sum_utf8_ascii key.data h]
      omega
    obtain ⟨t, ht⟩ := takeBytes_ascii key.data _ h hle
    unfold auth_key_prefix str_slice_to
    rw [ht]
    exact ⟨⟨t⟩, rfl⟩

/-- Witness for C9 (amended) at concrete keys. -/
theorem C9_amended_key_prefix_display_witness :
    verbose_key_prefix "short" = none ∧
    auth_key_prefix "short" = some "short" ∧
    (∃ s, auth_key_prefix "hcaik_0123456789" = some s) :=
  ⟨(C9_amended_key_prefix_display "short").1 (by decide),
   (C9_amended_key_prefix_display "short").2.1 (by decide),
   (C9_amended_key_prefix_display "hcaik_0123456789").2.2 (by decide)⟩

/-! ## C3: environment pre-validation -/

theorem attr_matches_iff (attrs : List (String × Json)) (environment : String) :
    attr_matches attrs environment = true ↔
      (jget attrs "slug" = some (.str environment) ∨
       jget attrs "name" = some (.str environment)) := by
  constructor
  · intro h
    simp only [attr_matches, Bool.or_eq_true] at h
    rcases h with hs | hn
    · left
      rcases hsv : jget attrs "slug" with _ | sv
      · rw [hsv] at hs
        exact absurd hs (by simp)
      · rw [hsv] at hs
        cases sv with
        | str slug =>
          have : slug = environment := by simpa using hs
          rw [this]
        | null => exact absurd hs (by simp)
        | bool b => exact absurd hs (by simp)
        | num n => exact absurd hs (by simp)
        | arr es => exact absurd hs (by simp)
        | obj fs => exact absurd hs (by simp)
    · right
      rcases hnv : jget attrs "name" with _ | nv
      · rw [hnv] at hn
        exact absurd hn (by simp)
      · rw [hnv] at hn
        cases nv with
        | str name =>
          have : name = environment := by simpa using hn
          rw [this]
        | null => exact absurd hn (by simp)
        | bool b => exact absurd hn (by simp)
        | num n => exact absurd hn (by simp)
        | arr es => exact absurd hn (by simp)
        | obj fs => exact absurd hn (by simp)
  · intro h
    rcases h with hs | hn
    · unfold attr_matches
      rw [hs]
      simp
    · unfold attr_matches
      rw [hn]
      simp

theorem env_entry_matches_iff (env : Json) (environment : String) :
    env_entry_matches env environment = true ↔
      ∃ env_fields, env = .obj env_fields ∧
        ∃ attrs, jget env_fields "attributes" = some (.obj attrs) ∧
          (jget attrs "slug" = some (.str environment) ∨
           jget attrs "name" = some (.str environment)) := by
  cases env with
  | null => simp [env_entry_matches]
  | bool b => simp [env_entry_matches]
  | num n => simp [env_entry_matches]
  | str s => simp [env_entry_matches]
  | arr es => simp [env_entry_matches]
  | obj env_fields =>
    simp only [env_entry_matches]
    constructor
    · intro h
      rcases ha : jget env_fields "attributes" with _ | av
      · rw [ha] at h
        exact absurd h (by simp)
      · rw [ha] at h
        cases av with
        | obj attrs => exact ⟨env_fields, rfl, attrs, ha, (attr_matches_iff attrs environment).mp h⟩
        | null => exact absurd h (by simp)
        | bool b => exact absurd h (by simp)
        | num n => exact absurd h (by simp)
        | str s => exact absurd h (by simp)
        | arr es => exact absurd h (by simp)
    · rintro ⟨ef, hef, attrs, ha, hor⟩
      obtain rfl : ef = env_fields := by injection hef with h; exact h.symm
      rw [ha]
      exact (attr_matches_iff attrs environment).mpr hor

theorem validate_environment_iff (response : Json) (environment : String) :
    validate_environment response environment = true ↔
      ∃ fields, response = .obj fields ∧
        ∃ envs, jget fields "data" = some (.arr envs) ∧
          ∃ env ∈ envs, ∃ env_fields, env = .obj env_fields ∧
            ∃ attrs, jget env_fields "attributes" = some (.obj attrs) ∧
              (jget attrs "slug" = some (.str environment) ∨
               jget attrs "name" = some (.str environment)) := by
  cases response with
  | null => simp [validate_environment]
  | bool b => simp [validate_environment]
  | num n => simp [validate_environment]
  | str s => simp [validate_environment]
  | arr es => simp [validate_environment]
  | obj fields =>
    simp only [validate_environment]
    constructor
    · intro h
      rcases hd : jget fields "data" with _ | dv
      · rw [hd] at h
        exact absurd h (by simp)
      · rw [hd] at h
        cases dv with
        | arr envs =>
          obtain ⟨env, hmem, hf⟩ := List.any_eq_true.mp h
          obtain ⟨env_fields, rfl, attrs, ha, hor⟩ := (env_entry_matches_iff env environment).mp hf
          exact ⟨fields, rfl, envs, hd, .obj env_fields, hmem, env_fields, rfl, attrs, ha, hor⟩
        | null => exact absurd h (by simp)
        | bool b => exact absurd h (by simp)
        | num n => exact absurd h (by simp)
        | str s => exact absurd h (by simp)
        | obj fs => exact absurd h (by simp)
    · rintro ⟨fields', hf, envs, hd, env, hmem, env_fields, rfl, attrs, ha, hor⟩
      obtain rfl : fields' = fields := by injection hf with h; exact h.symm
      rw [hd]
      exact List.any_eq_true.mpr ⟨.obj env_fields, hmem,
        (env_entry_matches_iff _ environment).mpr ⟨env_fields, rfl, attrs, ha, hor⟩⟩

/-- C3: `require_valid_environment(t, e)` succeeds exactly when the JSON
returned by the secondary lookup is an object whose `data` field is an
array containing an element whose `attributes.slug` or `attributes.name`
string equals `e`; otherwise it fails with the environment-not-found
message naming `e` and `t`. -/
theorem C3_require_valid_environment (team environment : String) (response : Json) :
    (require_valid_environment team environment response = .ok () ↔
      ∃ fields, response = .obj fields ∧
        ∃ envs, jget fields "data" = some (.arr envs) ∧
          ∃ env ∈ envs, ∃ env_fields, env = .obj env_fields ∧
            ∃ attrs, jget env_fields "attributes" = some (.obj attrs) ∧
              (jget attrs "slug" = some (.str environment) ∨
               jget attrs "name" = some (.str environment))) ∧
    (require_valid_environment team environment response ≠ .ok () →
      require_valid_environment team environment response =
        .error (environment_not_found environment team)) := by
  constructor
  · rw [← validate_environment_iff response environment]
    unfold require_valid_environment
    by_cases hv : validate_environment response environment = true
    · simp [hv]
    · simp only [Bool.not_eq_true] at hv
      simp [hv]
  · intro hne
    unfold require_valid_environment at hne ⊢
    by_cases hv : validate_environment response environment = true
    · simp [hv] at hne
    · simp only [Bool.not_eq_true] at hv
      simp [hv]

/-- Witness for C3: a response containing a matching slug validates; a
non-object response fails with the environment-not-found message. -/
theorem C3_require_valid_environment_witness :
    require_valid_environment "acme" "prod"
      (Json.obj [("data", Json.arr
        [Json.obj [("attributes", Json.obj [("slug", Json.str "prod")])]])]) = .ok () ∧
    require_valid_environment "acme" "prod" Json.null =
      .error (environment_not_found "prod" "acme") :=
  ⟨(C3_require_valid_environment "acme" "prod" _).1.mpr
      ⟨_, rfl, _, rfl, Json.obj [("attributes", Json.obj [("slug", Json.str "prod")])],
        by simp, _, rfl, _, rfl, Or.inl rfl⟩,
   (C3_require_valid_environment "acme" "prod" Json.null).2 (by simp [require_valid_environment,
      validate_environment, environment_not_found])⟩

/-! ## C7: round-trip of the serializers through the parser.

The development below proves that parsing the compact or pretty
serialization of any `Json` value yields the value back. It follows the
usual structure for fuel-bounded recursive-descent parsers: token-level
lemmas (digits, string escapes, whitespace), then a mutual master lemma
by induction on the fuel, then the end-to-end theorem. -/

theorem char_isDigit_iff (c : Char) : c.isDigit = true ↔ 48 ≤ c.toNat ∧ c.toNat ≤ 57 := by
  simp only [Char.isDigit, Bool.and_eq_true, decide_eq_true_eq]
  exact Iff.rfl

theorem digit_ne {c : Char} (h : c.isDigit = true) {d : Char}
    (hd : (48 ≤ d.toNat ∧ d.toNat ≤ 57) → False) : c ≠ d := by
  intro he
  subst he
  exact hd ((char_isDigit_iff _).mp h)

theorem digit_not_ws {c : Char} (h : c.isDigit = true) : isWsChar c = false := by
  have h1 : c ≠ ' ' := digit_ne h (by decide)
  have h2 : c ≠ '\n' := digit_ne h (by decide)
  have h3 : c ≠ '\t' := digit_ne h (by decide)
  have h4 : c ≠ '\r' := digit_ne h (by decide)
  simp [isWsChar, h1, h2, h3, h4]

theorem digitOf_toNat (n : Nat) (h : n < 10) : (digitOf n).toNat = 48 + n := by
  unfold digitOf
  interval_cases n <;> decide

theorem digitOf_isDigit (n : Nat) (h : n < 10) : (digitOf n).isDigit = true := by
  unfold digitOf
  interval_cases n <;> decide

theorem skipWs_cons_ws {c : Char} (cs : List Char) (h : isWsChar c = true) :
    skipWs (c :: cs) = skipWs cs := by
  simp [skipWs, h]

theorem skipWs_cons_not {c : Char} (cs : List Char) (h : isWsChar c = false) :
    skipWs (c :: cs) = c :: cs := by
  simp [skipWs, h]

theorem skipWs_ind (n : Nat) (cs : List Char) : skipWs (ind n ++ cs) = skipWs cs := by
  induction n with
  | zero => simp [ind]
  | succ m ih =>
    have hrep : ind (m + 1) = ' ' :: ind m := by simp [ind, List.replicate_succ]
    rw [hrep, List.cons_append, skipWs_cons_ws _ (by decide), ih]

theorem natToDigits_lt10 (n : Nat) (h : n < 10) : natToDigits n = [digitOf n] := by
  unfold natToDigits
  cases n with
  | zero => rfl
  | succ m => simp [natToDigitsAux, h]

theorem natToDigitsAux_fuel : ∀ n f g, n ≤ f → n ≤ g →
    natToDigitsAux f n = natToDigitsAux g n := by
  intro n
  induction n using Nat.strong_induction_on with
  | _ n ih =>
    intro f g hf hg
    by_cases h10 : n < 10
    · have hv : ∀ m, n ≤ m → natToDigitsAux m n = [digitOf n] := by
        intro m hm
        cases m with
        | zero =>
          have : n = 0 := by omega
          subst this
          rfl
        | succ m' => simp [natToDigitsAux, h10]
      rw [hv f hf, hv g hg]
    · obtain ⟨f', rfl⟩ : ∃ f', f = f' + 1 := ⟨f - 1, by omega⟩
      obtain ⟨g', rfl⟩ : ∃ g', g = g' + 1 := ⟨g - 1, by omega⟩
      have hdiv : n / 10 < n := Nat.div_lt_self (by omega) (by omega)
      have h1 : natToDigitsAux (f' + 1) n = natToDigitsAux f' (n / 10) ++ [digitOf (n % 10)] := by
        simp [natToDigitsAux, h10]
      have h2 : natToDigitsAux (g' + 1) n = natToDigitsAux g' (n / 10) ++ [digitOf (n % 10)] := by
        simp [natToDigitsAux, h10]
      rw [h1, h2, ih (n / 10) hdiv f' g' (by omega) (by omega)]

theorem natToDigits_step (n : Nat) (h : 10 ≤ n) :
    natToDigits n = natToDigits (n / 10) ++ [digitOf (n % 10)] := by
  obtain ⟨m, rfl⟩ : ∃ m, n = m + 1 := ⟨n - 1, by omega⟩
  have h1 : natToDigits (m + 1) = natToDigitsAux m ((m + 1) / 10) ++ [digitOf ((m + 1) % 10)] := by
    unfold natToDigits
    simp [natToDigitsAux, show ¬(m + 1 < 10) by omega]
  rw [h1, natToDigitsAux_fuel ((m + 1) / 10) m ((m + 1) / 10) (by omega) (le_refl _)]
  rfl

theorem natToDigits_head : ∀ n : Nat, ∃ c l, natToDigits n = c :: l ∧ c.isDigit = true := by
  intro n
  induction n using Nat.strong_induction_on with
  | _ n ih =>
    by_cases h10 : n < 10
    · exact ⟨digitOf n, [], natToDigits_lt10 n h10, digitOf_isDigit n h10⟩
    · obtain ⟨c, l, hcl, hdig⟩ := ih (n / 10) (Nat.div_lt_self (by omega) (by omega))
      exact ⟨c, l ++ [digitOf (n % 10)], by
        rw [natToDigits_step n (by omega), hcl, List.cons_append], hdig⟩

theorem parseDigits_stop (rest : List Char) (acc : Nat) (h : numSafe rest = true) :
    parseDigits rest acc = (acc, rest) := by
  cases rest with
  | nil => rfl
  | cons c cs =>
    have hc : c.isDigit = false := by simpa [numSafe] using h
    simp [parseDigits, hc]

theorem parseDigits_natToDigits : ∀ n acc rest,
    parseDigits (natToDigits n ++ rest) acc =
      parseDigits rest (acc * 10 ^ (natToDigits n).length + n) := by
  intro n
  induction n using Nat.strong_induction_on with
  | _ n ih =>
    intro acc rest
    by_cases h10 : n < 10
    · rw [natToDigits_lt10 n h10]
      simp only [List.cons_append, List.nil_append, parseDigits, digitOf_isDigit n h10,
        if_true, digitOf_toNat n h10, List.length_singleton]
      congr 1
      omega
    · rw [natToDigits_step n (by omega), List.append_assoc,
        ih (n / 10) (Nat.div_lt_self (by omega) (by omega)) acc _]
      have hm : n % 10 < 10 := by omega
      simp only [List.cons_append, List.nil_append, parseDigits, digitOf_isDigit _ hm, if_true,
        digitOf_toNat _ hm]
      congr 1
      rw [List.length_append, List.length_singleton]
      have hmod : n / 10 * 10 + n % 10 = n := by omega
      calc (acc * 10 ^ (natToDigits (n / 10)).length + n / 10) * 10 + (48 + n % 10 - 48)
          = acc * (10 ^ (natToDigits (n / 10)).length * 10) + (n / 10 * 10 + n % 10) := by
            rw [show 48 + n % 10 - 48 = n % 10 by omega]; ring
        _ = acc * 10 ^ ((natToDigits (n / 10)).length + 1) + n := by rw [hmod, pow_succ]

theorem parseNat_natToDigits (n : Nat) (rest : List Char) (h : numSafe rest = true) :
    parseNat (natToDigits n ++ rest) = some (n, rest) := by
  obtain ⟨c, l, hcl, hdig⟩ := natToDigits_head n
  have key : parseDigits (natToDigits n ++ rest) 0 = (n, rest) := by
    rw [parseDigits_natToDigits n 0 rest, parseDigits_stop rest _ h]
    simp
  rw [hcl] at key ⊢
  simp only [List.cons_append, parseNat, hdig, if_true]
  simp only [List.cons_append, parseDigits, hdig, if_true, Nat.zero_mul, Nat.zero_add] at key
  exact congrArg some key

theorem hexVal_hexChar (d : Nat) (h : d < 16) : hexVal (hexChar d) = some d := by
  unfold hexVal hexChar
  interval_cases d <;> decide

theorem escapeChar_length_pos (c : Char) : 1 ≤ (escapeChar c).length := by
  unfold escapeChar
  split_ifs <;> simp

theorem escList_length_ge : ∀ l : List Char, l.length ≤ (escList l).length := by
  intro l
  induction l with
  | nil => simp [escList]
  | cons c l ih =>
    have := escapeChar_length_pos c
    simp only [escList, List.length_append, List.length_cons]
    omega

theorem parseStringBody_escList : ∀ (l : List Char) (fuel : Nat) (rest : List Char),
    l.length < fuel →
    parseStringBody fuel (escList l ++ '"' :: rest) = some (l, rest) := by
  intro l
  induction l with
  | nil =>
    intro fuel rest hf
    obtain ⟨f, rfl⟩ : ∃ f, fuel = f + 1 := ⟨fuel - 1, by omega⟩
    simp [escList, parseStringBody]
  | cons c l ih =>
    intro fuel rest hf
    obtain ⟨f, rfl⟩ : ∃ f, fuel = f + 1 := ⟨fuel - 1, by omega⟩
    have hlen : l.length < f := by
      simp only [List.length_cons] at hf
      omega
    show parseStringBody (f + 1) ((escapeChar c ++ escList l) ++ '"' :: rest) = _
    rw [List.append_assoc]
    by_cases h1 : c = '"'
    · subst h1; simp [escapeChar, parseStringBody, unescapeChar, ih _ _ hlen]
    by_cases h2 : c = '\\'
    · subst h2; simp [escapeChar, parseStringBody, unescapeChar, ih _ _ hlen]
    by_cases h3 : c = '\x08'
    · subst h3; simp [escapeChar, parseStringBody, unescapeChar, ih _ _ hlen]
    by_cases h4 : c = '\x0c'
    · subst h4; simp [escapeChar, parseStringBody, unescapeChar, ih _ _ hlen]
    by_cases h5 : c = '\n'
    · subst h5; simp [escapeChar, parseStringBody, unescapeChar, ih _ _ hlen]
    by_cases h6 : c = '\r'
    · subst h6; simp [escapeChar, parseStringBody, unescapeChar, ih _ _ hlen]
    by_cases h7 : c = '\t'
    · subst h7; simp [escapeChar, parseStringBody, unescapeChar, ih _ _ hlen]
    by_cases h8 : c.toNat < 32
    · have hesc : escapeChar c =
          ['\\', 'u', '0', '0', hexChar (c.toNat / 16), hexChar (c.toNat % 16)] := by
        simp [escapeChar, h1, h2, h3, h4, h5, h6, h7, h8]
      rw [hesc]
      have hhi := hexVal_hexChar (c.toNat / 16) (by omega)
      have hlo := hexVal_hexChar (c.toNat % 16) (by omega)
      have h0 : hexVal '0' = some 0 := by decide
      simp [parseStringBody, h0, hhi, hlo, ih _ _ hlen]
      rw [show c.toNat / 16 * 16 + c.toNat % 16 = c.toNat by omega, Char.ofNat_toNat]
    · have hesc : escapeChar c = [c] := by
        simp [escapeChar, h1, h2, h3, h4, h5, h6, h7, h8]
      rw [hesc]
      simp [parseStringBody, h1, h2, ih _ _ hlen]

theorem stripChars_self : ∀ l rest : List Char, stripChars l (l ++ rest) = some rest := by
  intro l
  induction l with
  | nil => intro rest; rfl
  | cons c l ih => intro rest; simp [stripChars, ih]

theorem parseArrElems_ws {c : Char} (h : isWsChar c = true) (fuel : Nat) (cs : List Char) :
    parseArrElems fuel (c :: cs) = parseArrElems fuel cs := by
  cases fuel with
  | zero => rfl
  | succ f =>
    simp only [parseArrElems]
    rw [skipWs_cons_ws cs h]

theorem parseArrElems_ind (m fuel : Nat) (cs : List Char) :
    parseArrElems fuel (ind m ++ cs) = parseArrElems fuel cs := by
  induction m with
  | zero => simp [ind]
  | succ k ih =>
    have hrep : ind (k + 1) = ' ' :: ind k := by simp [ind, List.replicate_succ]
    rw [hrep, List.cons_append, parseArrElems_ws (by decide), ih]

theorem parseObjFields_ws {c : Char} (h : isWsChar c = true) (fuel : Nat) (cs : List Char) :
    parseObjFields fuel (c :: cs) = parseObjFields fuel cs := by
  cases fuel with
  | zero => rfl
  | succ f =>
    simp only [parseObjFields]
    rw [skipWs_cons_ws cs h]

theorem parseObjFields_ind (m fuel : Nat) (cs : List Char) :
    parseObjFields fuel (ind m ++ cs) = parseObjFields fuel cs := by
  induction m with
  | zero => simp [ind]
  | succ k ih =>
    have hrep : ind (k + 1) = ' ' :: ind k := by simp [ind, List.replicate_succ]
    rw [hrep, List.cons_append, parseObjFields_ws (by decide), ih]

theorem printc_head (v : Json) : ∃ c l, printc v = c :: l ∧
    (c = 'n' ∨ c = 't' ∨ c = 'f' ∨ c = '-' ∨ c.isDigit = true ∨
     c = '"' ∨ c = '[' ∨ c = '{') := by
  cases v with
  | null => exact ⟨'n', ['u', 'l', 'l'], by simp [printc, nullChars], by tauto⟩
  | bool b =>
    cases b with
    | true => exact ⟨'t', ['r', 'u', 'e'], by simp [printc, trueChars], by tauto⟩
    | false => exact ⟨'f', ['a', 'l', 's', 'e'], by simp [printc, falseChars], by tauto⟩
  | num i =>
    by_cases hneg : i < 0
    · exact ⟨'-', natToDigits i.natAbs, by simp [printc, intChars, hneg], by tauto⟩
    · obtain ⟨c, l, hcl, hdig⟩ := natToDigits_head i.natAbs
      exact ⟨c, l, by simp [printc, intChars, hneg, hcl], by tauto⟩
  | str s => exact ⟨'"', escList s.data ++ ['"'], by simp [printc], by tauto⟩
  | arr es => exact ⟨'[', printcItems es ++ [']'], by simp [printc], by tauto⟩
  | obj fs => exact ⟨'{', printcFields fs ++ ['}'], by simp [printc], by tauto⟩

theorem head_facts {c : Char}
    (h : c = 'n' ∨ c = 't' ∨ c = 'f' ∨ c = '-' ∨ c.isDigit = true ∨
         c = '"' ∨ c = '[' ∨ c = '{') :
    isWsChar c = false ∧ c ≠ ']' ∧ c ≠ '}' := by
  rcases h with rfl | rfl | rfl | rfl | hd | rfl | rfl | rfl
  · exact ⟨by decide, by decide, by decide⟩
  · exact ⟨by decide, by decide, by decide⟩
  · exact ⟨by decide, by decide, by decide⟩
  · exact ⟨by decide, by decide, by decide⟩
  · exact ⟨digit_not_ws hd, digit_ne hd (by decide), digit_ne hd (by decide)⟩
  · exact ⟨by decide, by decide, by decide⟩
  · exact ⟨by decide, by decide, by decide⟩
  · exact ⟨by decide, by decide, by decide⟩

theorem printcItems_cons_shape (e : Json) (es : List Json) :
    ∃ t, printcItems (e :: es) = printc e ++ t := by
  cases es with
  | nil => exact ⟨[], by simp [printcItems]⟩
  | cons e' es' => exact ⟨',' :: printcItems (e' :: es'), by simp [printcItems]⟩

theorem printcFields_cons_shape (k : String) (v : Json) (fs : List (String × Json)) :
    ∃ t, printcFields ((k, v) :: fs) = '"' :: t := by
  cases fs with
  | nil => exact ⟨escList k.data ++ '"' :: ':' :: printc v, by simp [printcFields]⟩
  | cons f fs' =>
    exact ⟨escList k.data ++ '"' :: ':' :: (printc v ++ ',' :: printcFields (f :: fs')),
      by simp [printcFields]⟩

theorem jsize_pos (v : Json) : 1 ≤ jsize v := by
  cases v <;> simp [jsize]

theorem lsize_pos (es : List Json) : 1 ≤ lsize es := by
  cases es with
  | nil => simp [lsize]
  | cons e es' =>
    simp only [lsize]
    omega

theorem fsize_pos (fs : List (String × Json)) : 1 ≤ fsize fs := by
  cases fs with
  | nil => simp [fsize]
  | cons f fs' =>
    obtain ⟨k, v⟩ := f
    simp only [fsize]
    omega

theorem numSafe_cons (c : Char) (cs : List Char) (h : c.isDigit = false) :
    numSafe (c :: cs) = true := by
  simp [numSafe, h]

/-- Master lemma for the compact serializer: with enough fuel, parsing the
compact form of a value (an element list, a field list) consumes exactly
it and returns it, for any continuation that cannot extend a number. -/
theorem parse_printc_master : ∀ fuel : Nat,
    (∀ v rest, jsize v ≤ fuel → numSafe rest = true →
      parseValCore fuel (printc v ++ rest) = some (v, rest)) ∧
    (∀ e es rest, lsize (e :: es) ≤ fuel →
      parseArrElems fuel (printcItems (e :: es) ++ ']' :: rest) = some (e :: es, rest)) ∧
    (∀ k v fs rest, fsize ((k, v) :: fs) ≤ fuel →
      parseObjFields fuel (printcFields ((k, v) :: fs) ++ '}' :: rest) =
        some ((k, v) :: fs, rest)) := by
  intro fuel
  induction fuel with
  | zero =>
    refine ⟨fun v rest hsz _ => absurd hsz (by have := jsize_pos v; omega),
      fun e es rest hsz => absurd hsz (by have := lsize_pos (e :: es); omega),
      fun k v fs rest hsz => absurd hsz (by have := fsize_pos ((k, v) :: fs); omega)⟩
  | succ f ih =>
    obtain ⟨ihA, ihB, ihC⟩ := ih
    refine ⟨?_, ?_, ?_⟩
    · intro v rest hsz hns
      cases v with
      | null => simp [printc, nullChars, parseValCore, stripChars]
      | bool b => cases b <;> simp [printc, trueChars, falseChars, parseValCore, stripChars]
      | num i =>
        by_cases hneg : i < 0
        · have hpr : printc (Json.num i) = '-' :: natToDigits i.natAbs := by
            simp [printc, intChars, hneg]
          have hpn := parseNat_natToDigits i.natAbs rest hns
          rw [hpr, List.cons_append]
          simp [parseValCore, hpn, abs_of_neg hneg]
        · obtain ⟨c, l, hcl, hdig⟩ := natToDigits_head i.natAbs
          have hpr : printc (Json.num i) = natToDigits i.natAbs := by
            simp [printc, intChars, hneg]
          have hpn := parseNat_natToDigits i.natAbs rest hns
          have h1 : c ≠ 'n' := digit_ne hdig (by decide)
          have h2 : c ≠ 't' := digit_ne hdig (by decide)
          have h3 : c ≠ 'f' := digit_ne hdig (by decide)
          have h4 : c ≠ '"' := digit_ne hdig (by decide)
          have h5 : c ≠ '[' := digit_ne hdig (by decide)
          have h6 : c ≠ '{' := digit_ne hdig (by decide)
          have h7 : c ≠ '-' := digit_ne hdig (by decide)
          rw [hpr, hcl, List.cons_append]
          have hfold : c :: (l ++ rest) = natToDigits i.natAbs ++ rest := by
            rw [hcl]
            rfl
          simp only [parseValCore, h1, h2, h3, h4, h5, h6, h7, hdig, if_false, if_true,
            ite_false, ite_true, hfold, hpn]
          simp [abs_of_nonneg (show (0 : Int) ≤ i by omega)]
      | str s =>
        have hpr : printc (Json.str s) ++ rest = '"' :: (escList s.data ++ '"' :: rest) := by
          simp [printc]
        rw [hpr]
        have hpsb := parseStringBody_escList s.data
          ((escList s.data).length + (rest.length + 1) + 1) rest
          (by have := escList_length_ge s.data; omega)
        simp [parseValCore, hpsb, String_mk_data]
      | arr es =>
        cases es with
        | nil => simp [printc, printcItems, parseValCore, skipWs, isWsChar]
        | cons e es' =>
          have hsz' : lsize (e :: es') ≤ f := by
            simp only [jsize] at hsz
            omega
          obtain ⟨t, ht⟩ := printcItems_cons_shape e es'
          obtain ⟨c, l, hcl, hh⟩ := printc_head e
          obtain ⟨hws, hne1, _⟩ := head_facts hh
          have hexp : printc (Json.arr (e :: es')) ++ rest =
              '[' :: (printcItems (e :: es') ++ ']' :: rest) := by
            simp [printc]
          rw [hexp]
          have hhead : printcItems (e :: es') ++ ']' :: rest = c :: (l ++ (t ++ ']' :: rest)) := by
            rw [ht, hcl]
            simp [List.append_assoc]
          have hskip : skipWs (printcItems (e :: es') ++ ']' :: rest) =
              printcItems (e :: es') ++ ']' :: rest := by
            conv in skipWs _ => rw [hhead]
            rw [skipWs_cons_not _ hws, ← hhead]
          have hc1 : ¬(printcItems (e :: es')).head? = some ']' := by
            rw [ht, hcl, List.cons_append]
            simp [hne1]
          have hc2 : ¬printcItems (e :: es') = [] := by
            rw [ht, hcl, List.cons_append]
            simp
          have harr := ihB e es' rest hsz'
          simp [parseValCore, hskip, harr, hc1, hc2]
      | obj fs =>
        cases fs with
        | nil => simp [printc, printcFields, parseValCore, skipWs, isWsChar]
        | cons kv fs' =>
          obtain ⟨k, v⟩ := kv
          have hsz' : fsize ((k, v) :: fs') ≤ f := by
            simp only [jsize] at hsz
            omega
          obtain ⟨t, ht⟩ := printcFields_cons_shape k v fs'
          have hexp : printc (Json.obj ((k, v) :: fs')) ++ rest =
              '{' :: (printcFields ((k, v) :: fs') ++ '}' :: rest) := by
            simp [printc]
          rw [hexp]
          have hhead : printcFields ((k, v) :: fs') ++ '}' :: rest = '"' :: (t ++ '}' :: rest) := by
            rw [ht]
            rfl
          have hskip : skipWs (printcFields ((k, v) :: fs') ++ '}' :: rest) =
              printcFields ((k, v) :: fs') ++ '}' :: rest := by
            conv in skipWs _ => rw [hhead]
            rw [skipWs_cons_not _ (by decide), ← hhead]
          have hc1 : ¬(printcFields ((k, v) :: fs')).head? = some '}' := by
            rw [ht]
            simp
          have hc2 : ¬printcFields ((k, v) :: fs') = [] := by
            rw [ht]
            simp
          have hobj := ihC k v fs' rest hsz'
          simp [parseValCore, hskip, hobj, hc1, hc2]
    · intro e es rest hsz
      cases es with
      | nil =>
        have hsze : jsize e ≤ f := by
          simp only [lsize] at hsz
          omega
        obtain ⟨c, l, hcl, hh⟩ := printc_head e
        obtain ⟨hws, _, _⟩ := head_facts hh
        have hitems : printcItems [e] ++ ']' :: rest = printc e ++ ']' :: rest := by
          simp [printcItems]
        rw [hitems]
        have hskip : skipWs (printc e ++ ']' :: rest) = printc e ++ ']' :: rest := by
          rw [hcl, List.cons_append, skipWs_cons_not _ hws]
        have hA := ihA e (']' :: rest) hsze (numSafe_cons _ _ (by decide))
        have hsk2 : skipWs (']' :: rest) = ']' :: rest := skipWs_cons_not _ (by decide)
        simp [parseArrElems, hskip, hA, hsk2]
      | cons e' es' =>
        have hsze : jsize e ≤ f := by
          simp only [lsize] at hsz
          omega
        have hszes : lsize (e' :: es') ≤ f := by
          have := jsize_pos e
          simp only [lsize] at hsz ⊢
          omega
        have hitems : printcItems (e :: e' :: es') ++ ']' :: rest =
            printc e ++ (',' :: (printcItems (e' :: es') ++ ']' :: rest)) := by
          simp [printcItems]
        rw [hitems]
        obtain ⟨c, l, hcl, hh⟩ := printc_head e
        obtain ⟨hws, _, _⟩ := head_facts hh
        have hskip : skipWs (printc e ++ (',' :: (printcItems (e' :: es') ++ ']' :: rest))) =
            printc e ++ (',' :: (printcItems (e' :: es') ++ ']' :: rest)) := by
          rw [hcl, List.cons_append, skipWs_cons_not _ hws]
        have hA := ihA e (',' :: (printcItems (e' :: es') ++ ']' :: rest)) hsze
          (numSafe_cons _ _ (by decide))
        have hsk2 : skipWs (',' :: (printcItems (e' :: es') ++ ']' :: rest)) =
            ',' :: (printcItems (e' :: es') ++ ']' :: rest) := skipWs_cons_not _ (by decide)
        have hB := ihB e' es' rest hszes
        simp [parseArrElems, hskip, hA, hsk2, hB]
    · intro k v fs rest hsz
      cases fs with
      | nil =>
        have hszv : jsize v ≤ f := by
          simp only [fsize] at hsz
          omega
        have hfields : printcFields [(k, v)] ++ '}' :: rest =
            '"' :: (escList k.data ++ '"' :: (':' :: (printc v ++ '}' :: rest))) := by
          simp [printcFields]
        rw [hfields]
        obtain ⟨c, l, hcl, hh⟩ := printc_head v
        obtain ⟨hws, _, _⟩ := head_facts hh
        have hsk1 : skipWs ('"' :: (escList k.data ++ '"' :: (':' :: (printc v ++ '}' :: rest)))) =
            '"' :: (escList k.data ++ '"' :: (':' :: (printc v ++ '}' :: rest))) :=
          skipWs_cons_not _ (by decide)
        have hlen : k.data.length <
            (escList k.data ++ '"' :: (':' :: (printc v ++ '}' :: rest))).length + 1 := by
          have := escList_length_ge k.data
          simp only [List.length_append, List.length_cons]
          omega
        have hpsb := parseStringBody_escList k.data _ (':' :: (printc v ++ '}' :: rest)) hlen
        have hsk2 : skipWs (':' :: (printc v ++ '}' :: rest)) =
            ':' :: (printc v ++ '}' :: rest) := skipWs_cons_not _ (by decide)
        have hskv : skipWs (printc v ++ '}' :: rest) = printc v ++ '}' :: rest := by
          rw [hcl, List.cons_append, skipWs_cons_not _ hws]
        have hA := ihA v ('}' :: rest) hszv (numSafe_cons _ _ (by decide))
        have hsk3 : skipWs ('}' :: rest) = '}' :: rest := skipWs_cons_not _ (by decide)
        simp [parseObjFields, hsk1, hpsb, hsk2, hskv, hA, hsk3, String_mk_data,
          -List.length_append, -List.length_cons]
      | cons kv' fs' =>
        obtain ⟨k', v'⟩ := kv'
        have hszv : jsize v ≤ f := by
          simp only [fsize] at hsz
          omega
        have hszfs : fsize ((k', v') :: fs') ≤ f := by
          have := jsize_pos v
          simp only [fsize] at hsz ⊢
          omega
        have hfields : printcFields ((k, v) :: (k', v') :: fs') ++ '}' :: rest =
            '"' :: (escList k.data ++ '"' :: (':' :: (printc v ++
              ',' :: (printcFields ((k', v') :: fs') ++ '}' :: rest)))) := by
          simp [printcFields]
        rw [hfields]
        obtain ⟨c, l, hcl, hh⟩ := printc_head v
        obtain ⟨hws, _, _⟩ := head_facts hh
        have hsk1 : skipWs ('"' :: (escList k.data ++ '"' :: (':' :: (printc v ++
            ',' :: (printcFields ((k', v') :: fs') ++ '}' :: rest))))) =
            '"' :: (escList k.data ++ '"' :: (':' :: (printc v ++
            ',' :: (printcFields ((k', v') :: fs') ++ '}' :: rest)))) :=
          skipWs_cons_not _ (by decide)
        have hlen : k.data.length < (escList k.data ++ '"' :: (':' :: (printc v ++
            ',' :: (printcFields ((k', v') :: fs') ++ '}' :: rest)))).length + 1 := by
          have := escList_length_ge k.data
          simp only [List.length_append, List.length_cons]
          omega
        have hpsb := parseStringBody_escList k.data _
          (':' :: (printc v ++ ',' :: (printcFields ((k', v') :: fs') ++ '}' :: rest))) hlen
        have hsk2 : skipWs (':' :: (printc v ++
            ',' :: (printcFields ((k', v') :: fs') ++ '}' :: rest))) =
            ':' :: (printc v ++ ',' :: (printcFields ((k', v') :: fs') ++ '}' :: rest)) :=
          skipWs_cons_not _ (by decide)
        have hskv : skipWs (printc v ++ ',' :: (printcFields ((k', v') :: fs') ++ '}' :: rest)) =
            printc v ++ ',' :: (printcFields ((k', v') :: fs') ++ '}' :: rest) := by
          rw [hcl, List.cons_append, skipWs_cons_not _ hws]
        have hA := ihA v (',' :: (printcFields ((k', v') :: fs') ++ '}' :: rest)) hszv
          (numSafe_cons _ _ (by decide))
        have hsk3 : skipWs (',' :: (printcFields ((k', v') :: fs') ++ '}' :: rest)) =
            ',' :: (printcFields ((k', v') :: fs') ++ '}' :: rest) :=
          skipWs_cons_not _ (by decide)
        have hC := ihC k' v' fs' rest hszfs
        simp [parseObjFields, hsk1, hpsb, hsk2, hskv, hA, hsk3, hC, String_mk_data,
          -List.length_append, -List.length_cons]

theorem printp_head (n : Nat) (v : Json) : ∃ c l, printp n v = c :: l ∧
    (c = 'n' ∨ c = 't' ∨ c = 'f' ∨ c = '-' ∨ c.isDigit = true ∨
     c = '"' ∨ c = '[' ∨ c = '{') := by
  cases v with
  | null => exact ⟨'n', ['u', 'l', 'l'], by simp [printp, nullChars], by tauto⟩
  | bool b =>
    cases b with
    | true => exact ⟨'t', ['r', 'u', 'e'], by simp [printp, trueChars], by tauto⟩
    | false => exact ⟨'f', ['a', 'l', 's', 'e'], by simp [printp, falseChars], by tauto⟩
  | num i =>
    by_cases hneg : i < 0
    · exact ⟨'-', natToDigits i.natAbs, by simp [printp, intChars, hneg], by tauto⟩
    · obtain ⟨c, l, hcl, hdig⟩ := natToDigits_head i.natAbs
      exact ⟨c, l, by simp [printp, intChars, hneg, hcl], by tauto⟩
  | str s => exact ⟨'"', escList s.data ++ ['"'], by simp [printp], by tauto⟩
  | arr es =>
    cases es with
    | nil => exact ⟨'[', [']'], by simp [printp], by tauto⟩
    | cons e es' =>
      exact ⟨'[', '\n' :: (printpItems (n + 2) (e :: es') ++ '\n' :: (ind n ++ [']'])),
        by simp [printp], by tauto⟩
  | obj fs =>
    cases fs with
    | nil => exact ⟨'{', ['}'], by simp [printp], by tauto⟩
    | cons f fs' =>
      exact ⟨'{', '\n' :: (printpFields (n + 2) (f :: fs') ++ '\n' :: (ind n ++ ['}'])),
        by simp [printp], by tauto⟩

theorem printc_length_pos (v : Json) : 1 ≤ (printc v).length := by
  obtain ⟨c, l, hcl, _⟩ := printc_head v
  rw [hcl]
  simp

theorem printp_length_pos (n : Nat) (v : Json) : 1 ≤ (printp n v).length := by
  obtain ⟨c, l, hcl, _⟩ := printp_head n v
  rw [hcl]
  simp

/-- The fuel measure of a value is at most twice the length of either of
its serializations (each unit of fuel the parser spends consumes at least
one character, and brackets/separators pay for the chain links). -/
theorem size_bound : ∀ N : Nat,
    (∀ v, jsize v ≤ N →
      jsize v ≤ 2 * (printc v).length ∧ ∀ n, jsize v ≤ 2 * (printp n v).length) ∧
    (∀ e es, lsize (e :: es) ≤ N →
      lsize (e :: es) ≤ 2 * (printcItems (e :: es)).length + 2 ∧
      ∀ n, lsize (e :: es) ≤ 2 * (printpItems n (e :: es)).length + 2) ∧
    (∀ k v fs, fsize ((k, v) :: fs) ≤ N →
      fsize ((k, v) :: fs) ≤ 2 * (printcFields ((k, v) :: fs)).length + 2 ∧
      ∀ n, fsize ((k, v) :: fs) ≤ 2 * (printpFields n ((k, v) :: fs)).length + 2) := by
  intro N
  induction N with
  | zero =>
    refine ⟨fun v hsz => absurd hsz (by have := jsize_pos v; omega),
      fun e es hsz => absurd hsz (by have := lsize_pos (e :: es); omega),
      fun k v fs hsz => absurd hsz (by have := fsize_pos ((k, v) :: fs); omega)⟩
  | succ N ih =>
    obtain ⟨ihA, ihB, ihC⟩ := ih
    refine ⟨?_, ?_, ?_⟩
    · intro v hsz
      refine ⟨?_, fun n => ?_⟩
      · cases v with
        | null => simp [jsize, printc, nullChars]
        | bool b => cases b <;> simp [jsize, printc, trueChars, falseChars]
        | num i =>
          have := printc_length_pos (Json.num i)
          simp only [jsize]
          omega
        | str s =>
          simp only [jsize, printc, List.length_cons, List.length_append, List.length_singleton]
          omega
        | arr es =>
          cases es with
          | nil => simp [jsize, lsize, printc, printcItems]
          | cons e es' =>
            have hb := (ihB e es' (by simp only [jsize] at hsz; omega)).1
            simp only [jsize, printc, List.length_cons, List.length_append,
              List.length_singleton] at hb ⊢
            omega
        | obj fs =>
          cases fs with
          | nil => simp [jsize, fsize, printc, printcFields]
          | cons kv fs' =>
            obtain ⟨k, v'⟩ := kv
            have hb := (ihC k v' fs' (by simp only [jsize] at hsz; omega)).1
            simp only [jsize, printc, List.length_cons, List.length_append,
              List.length_singleton] at hb ⊢
            omega
      · cases v with
        | null => simp [jsize, printp, nullChars]
        | bool b => cases b <;> simp [jsize, printp, trueChars, falseChars]
        | num i =>
          have := printp_length_pos n (Json.num i)
          simp only [jsize]
          omega
        | str s =>
          simp only [jsize, printp, List.length_cons, List.length_append, List.length_singleton]
          omega
        | arr es =>
          cases es with
          | nil => simp [jsize, lsize, printp]
          | cons e es' =>
            have hb := ((ihB e es' (by simp only [jsize] at hsz; omega)).2 (n + 2))
            simp only [jsize, printp, List.length_cons, List.length_append,
              List.length_singleton] at hb ⊢
            omega
        | obj fs =>
          cases fs with
          | nil => simp [jsize, fsize, printp]
          | cons kv fs' =>
            obtain ⟨k, v'⟩ := kv
            have hb := ((ihC k v' fs' (by simp only [jsize] at hsz; omega)).2 (n + 2))
            simp only [jsize, printp, List.length_cons, List.length_append,
              List.length_singleton] at hb ⊢
            omega
    · intro e es hsz
      refine ⟨?_, fun n => ?_⟩
      · cases es with
        | nil =>
          have ha := (ihA e (by simp only [lsize] at hsz; omega)).1
          simp only [lsize, printcItems]
          omega
        | cons e' es' =>
          have ha := (ihA e (by simp only [lsize] at hsz; omega)).1
          have hb := (ihB e' es' (by have h0 := jsize_pos e; simp only [lsize] at hsz ⊢; omega)).1
          simp only [lsize, printcItems, List.length_append, List.length_cons] at hb ⊢
          omega
      · cases es with
        | nil =>
          have ha := ((ihA e (by simp only [lsize] at hsz; omega)).2 n)
          simp only [lsize, printpItems, List.length_append, List.length_cons]
          omega
        | cons e' es' =>
          have ha := ((ihA e (by simp only [lsize] at hsz; omega)).2 n)
          have hszes : lsize (e' :: es') ≤ N := by
            have h0 := jsize_pos e
            simp only [lsize] at hsz ⊢
            omega
          have hb := ((ihB e' es' hszes).2 n)
          simp only [lsize, printpItems, List.length_append, List.length_cons] at hb ⊢
          omega
    · intro k v fs hsz
      refine ⟨?_, fun n => ?_⟩
      · cases fs with
        | nil =>
          have ha := (ihA v (by simp only [fsize] at hsz; omega)).1
          simp only [fsize, printcFields, List.length_append, List.length_cons]
          omega
        | cons kv' fs' =>
          obtain ⟨k', v'⟩ := kv'
          have ha := (ihA v (by simp only [fsize] at hsz; omega)).1
          have hszfs : fsize ((k', v') :: fs') ≤ N := by
            have h0 := jsize_pos v
            simp only [fsize] at hsz ⊢
            omega
          have hb := (ihC k' v' fs' hszfs).1
          simp only [fsize, printcFields, List.length_append, List.length_cons] at hb ⊢
          omega
      · cases fs with
        | nil =>
          have ha := ((ihA v (by simp only [fsize] at hsz; omega)).2 n)
          simp only [fsize, printpFields, List.length_append, List.length_cons]
          omega
        | cons kv' fs' =>
          obtain ⟨k', v'⟩ := kv'
          have ha := ((ihA v (by simp only [fsize] at hsz; omega)).2 n)
          have hszfs : fsize ((k', v') :: fs') ≤ N := by
            have h0 := jsize_pos v
            simp only [fsize] at hsz ⊢
            omega
          have hb := ((ihC k' v' fs' hszfs).2 n)
          simp only [fsize, printpFields, List.length_append, List.length_cons] at hb ⊢
          omega

theorem printpItems_cons_shape (m : Nat) (e : Json) (es : List Json) :
    ∃ t, printpItems m (e :: es) = ind m ++ (printp m e ++ t) := by
  cases es with
  | nil => exact ⟨[], by simp [printpItems]⟩
  | cons e' es' =>
    exact ⟨',' :: '\n' :: printpItems m (e' :: es'), by simp [printpItems]⟩

theorem printpFields_cons_shape (m : Nat) (k : String) (v : Json) (fs : List (String × Json)) :
    ∃ t, printpFields m ((k, v) :: fs) = ind m ++ ('"' :: t) := by
  cases fs with
  | nil =>
    exact ⟨escList k.data ++ '"' :: ':' :: ' ' :: printp m v, by simp [printpFields]⟩
  | cons f fs' =>
    exact ⟨escList k.data ++ '"' :: ':' :: ' ' :: (printp m v ++
      ',' :: '\n' :: printpFields m (f :: fs')), by simp [printpFields]⟩

/-- Master lemma for the pretty serializer: with enough fuel, parsing the
pretty form of a value (an element list at indentation `m` closed at
indentation `mo`, a field list likewise) consumes exactly it and returns
it. -/
theorem parse_printp_master : ∀ fuel : Nat,
    (∀ n v rest, jsize v ≤ fuel → numSafe rest = true →
      parseValCore fuel (printp n v ++ rest) = some (v, rest)) ∧
    (∀ m mo e es rest, lsize (e :: es) ≤ fuel →
      parseArrElems fuel (printpItems m (e :: es) ++ '\n' :: (ind mo ++ ']' :: rest)) =
        some (e :: es, rest)) ∧
    (∀ m mo k v fs rest, fsize ((k, v) :: fs) ≤ fuel →
      parseObjFields fuel (printpFields m ((k, v) :: fs) ++ '\n' :: (ind mo ++ '}' :: rest)) =
        some ((k, v) :: fs, rest)) := by
  intro fuel
  induction fuel with
  | zero =>
    refine ⟨fun n v rest hsz _ => absurd hsz (by have := jsize_pos v; omega),
      fun m mo e es rest hsz => absurd hsz (by have := lsize_pos (e :: es); omega),
      fun m mo k v fs rest hsz => absurd hsz (by have := fsize_pos ((k, v) :: fs); omega)⟩
  | succ f ih =>
    obtain ⟨ihA, ihB, ihC⟩ := ih
    refine ⟨?_, ?_, ?_⟩
    · intro n v rest hsz hns
      cases v with
      | null => simp [printp, nullChars, parseValCore, stripChars]
      | bool b => cases b <;> simp [printp, trueChars, falseChars, parseValCore, stripChars]
      | num i =>
        by_cases hneg : i < 0
        · have hpr : printp n (Json.num i) = '-' :: natToDigits i.natAbs := by
            simp [printp, intChars, hneg]
          have hpn := parseNat_natToDigits i.natAbs rest hns
          rw [hpr, List.cons_append]
          simp [parseValCore, hpn, abs_of_neg hneg]
        · obtain ⟨c, l, hcl, hdig⟩ := natToDigits_head i.natAbs
          have hpr : printp n (Json.num i) = natToDigits i.natAbs := by
            simp [printp, intChars, hneg]
          have hpn := parseNat_natToDigits i.natAbs rest hns
          have h1 : c ≠ 'n' := digit_ne hdig (by decide)
          have h2 : c ≠ 't' := digit_ne hdig (by decide)
          have h3 : c ≠ 'f' := digit_ne hdig (by decide)
          have h4 : c ≠ '"' := digit_ne hdig (by decide)
          have h5 : c ≠ '[' := digit_ne hdig (by decide)
          have h6 : c ≠ '{' := digit_ne hdig (by decide)
          have h7 : c ≠ '-' := digit_ne hdig (by decide)
          rw [hpr, hcl, List.cons_append]
          have hfold : c :: (l ++ rest) = natToDigits i.natAbs ++ rest := by
            rw [hcl]
            rfl
          simp only [parseValCore, h1, h2, h3, h4, h5, h6, h7, hdig, if_false, if_true,
            ite_false, ite_true, hfold, hpn]
          simp [abs_of_nonneg (show (0 : Int) ≤ i by omega)]
      | str s =>
        have hpr : printp n (Json.str s) ++ rest = '"' :: (escList s.data ++ '"' :: rest) := by
          simp [printp]
        rw [hpr]
        have hpsb := parseStringBody_escList s.data
          ((escList s.data).length + (rest.length + 1) + 1) rest
          (by have := escList_length_ge s.data; omega)
        simp [parseValCore, hpsb, String_mk_data]
      | arr es =>
        cases es with
        | nil => simp [printp, parseValCore, skipWs, isWsChar]
        | cons e es' =>
          have hsz' : lsize (e :: es') ≤ f := by
            simp only [jsize] at hsz
            omega
          obtain ⟨t, ht⟩ := printpItems_cons_shape (n + 2) e es'
          obtain ⟨c, l, hcl, hh⟩ := printp_head (n + 2) e
          obtain ⟨hws, hne1, _⟩ := head_facts hh
          have hexp : printp n (Json.arr (e :: es')) ++ rest =
              '[' :: '\n' :: (printpItems (n + 2) (e :: es') ++
                '\n' :: (ind n ++ ']' :: rest)) := by
            simp [printp]
          rw [hexp]
          have hW : printpItems (n + 2) (e :: es') ++ '\n' :: (ind n ++ ']' :: rest) =
              ind (n + 2) ++ (printp (n + 2) e ++
                (t ++ '\n' :: (ind n ++ ']' :: rest))) := by
            rw [ht]
            simp [List.append_assoc]
          have hskip : skipWs ('\n' :: (printpItems (n + 2) (e :: es') ++
              '\n' :: (ind n ++ ']' :: rest))) =
              printp (n + 2) e ++ (t ++ '\n' :: (ind n ++ ']' :: rest)) := by
            rw [skipWs_cons_ws _ (by decide), hW, skipWs_ind, hcl, List.cons_append,
              skipWs_cons_not _ hws]
          have hh1 : ¬(printp (n + 2) e).head? = some ']' := by
            rw [hcl]
            simp [hne1]
          have hh2 : ¬printp (n + 2) e = [] := by
            rw [hcl]
            simp
          have harr : parseArrElems f (printp (n + 2) e ++
              (t ++ '\n' :: (ind n ++ ']' :: rest))) = some (e :: es', rest) := by
            have h0 := ihB (n + 2) n e es' rest hsz'
            rw [hW, parseArrElems_ind] at h0
            exact h0
          simp [parseValCore, hskip, harr, hh1, hh2]
      | obj fs =>
        cases fs with
        | nil => simp [printp, parseValCore, skipWs, isWsChar]
        | cons kv fs' =>
          obtain ⟨k, v⟩ := kv
          have hsz' : fsize ((k, v) :: fs') ≤ f := by
            simp only [jsize] at hsz
            omega
          obtain ⟨t, ht⟩ := printpFields_cons_shape (n + 2) k v fs'
          have hexp : printp n (Json.obj ((k, v) :: fs')) ++ rest =
              '{' :: '\n' :: (printpFields (n + 2) ((k, v) :: fs') ++
                '\n' :: (ind n ++ '}' :: rest)) := by
            simp [printp]
          rw [hexp]
          have hW : printpFields (n + 2) ((k, v) :: fs') ++ '\n' :: (ind n ++ '}' :: rest) =
              ind (n + 2) ++ ('"' :: (t ++ '\n' :: (ind n ++ '}' :: rest))) := by
            rw [ht]
            simp [List.append_assoc]
          have hskip : skipWs ('\n' :: (printpFields (n + 2) ((k, v) :: fs') ++
              '\n' :: (ind n ++ '}' :: rest))) =
              '"' :: (t ++ '\n' :: (ind n ++ '}' :: rest)) := by
            rw [skipWs_cons_ws _ (by decide), hW, skipWs_ind,
              skipWs_cons_not _ (by decide)]
          have hc1 : (('"' :: (t ++ '\n' :: (ind n ++ '}' :: rest)) :
              List Char).head? = some '}') = False := by
            simp
          have hobj : parseObjFields f ('"' :: (t ++ '\n' :: (ind n ++ '}' :: rest))) =
              some ((k, v) :: fs', rest) := by
            have h0 := ihC (n + 2) n k v fs' rest hsz'
            rw [hW, parseObjFields_ind] at h0
            exact h0
          simp [parseValCore, hskip, hc1, hobj]
    · intro m mo e es rest hsz
      cases es with
      | nil =>
        have hsze : jsize e ≤ f := by
          simp only [lsize] at hsz
          omega
        obtain ⟨c, l, hcl, hh⟩ := printp_head m e
        obtain ⟨hws, _, _⟩ := head_facts hh
        have hitems : printpItems m [e] ++ '\n' :: (ind mo ++ ']' :: rest) =
            ind m ++ (printp m e ++ '\n' :: (ind mo ++ ']' :: rest)) := by
          simp [printpItems]
        rw [hitems]
        have hskip : skipWs (ind m ++ (printp m e ++ '\n' :: (ind mo ++ ']' :: rest))) =
            printp m e ++ '\n' :: (ind mo ++ ']' :: rest) := by
          rw [skipWs_ind, hcl, List.cons_append, skipWs_cons_not _ hws]
        have hA := ihA m e ('\n' :: (ind mo ++ ']' :: rest)) hsze (numSafe_cons _ _ (by decide))
        have hsk2 : skipWs ('\n' :: (ind mo ++ ']' :: rest)) = ']' :: rest := by
          rw [skipWs_cons_ws _ (by decide), skipWs_ind, skipWs_cons_not _ (by decide)]
        simp [parseArrElems, hskip, hA, hsk2]
      | cons e' es' =>
        have hsze : jsize e ≤ f := by
          simp only [lsize] at hsz
          omega
        have hszes : lsize (e' :: es') ≤ f := by
          have h0 := jsize_pos e
          simp only [lsize] at hsz ⊢
          omega
        have hitems : printpItems m (e :: e' :: es') ++ '\n' :: (ind mo ++ ']' :: rest) =
            ind m ++ (printp m e ++ ',' :: '\n' ::
              (printpItems m (e' :: es') ++ '\n' :: (ind mo ++ ']' :: rest))) := by
          simp [printpItems]
        rw [hitems]
        obtain ⟨c, l, hcl, hh⟩ := printp_head m e
        obtain ⟨hws, _, _⟩ := head_facts hh
        have hskip : skipWs (ind m ++ (printp m e ++ ',' :: '\n' ::
            (printpItems m (e' :: es') ++ '\n' :: (ind mo ++ ']' :: rest)))) =
            printp m e ++ ',' :: '\n' ::
              (printpItems m (e' :: es') ++ '\n' :: (ind mo ++ ']' :: rest)) := by
          rw [skipWs_ind, hcl, List.cons_append, skipWs_cons_not _ hws]
        have hA := ihA m e (',' :: '\n' ::
          (printpItems m (e' :: es') ++ '\n' :: (ind mo ++ ']' :: rest))) hsze
          (numSafe_cons _ _ (by decide))
        have hsk2 : skipWs (',' :: '\n' ::
            (printpItems m (e' :: es') ++ '\n' :: (ind mo ++ ']' :: rest))) =
            ',' :: '\n' :: (printpItems m (e' :: es') ++ '\n' :: (ind mo ++ ']' :: rest)) :=
          skipWs_cons_not _ (by decide)
        have hB : parseArrElems f ('\n' ::
            (printpItems m (e' :: es') ++ '\n' :: (ind mo ++ ']' :: rest))) =
            some (e' :: es', rest) := by
          rw [parseArrElems_ws (by decide)]
          exact ihB m mo e' es' rest hszes
        simp [parseArrElems, hskip, hA, hsk2, hB]
    · intro m mo k v fs rest hsz
      cases fs with
      | nil =>
        have hszv : jsize v ≤ f := by
          simp only [fsize] at hsz
          omega
        obtain ⟨c, l, hcl, hh⟩ := printp_head m v
        obtain ⟨hws, _, _⟩ := head_facts hh
        have hfields : printpFields m [(k, v)] ++ '\n' :: (ind mo ++ '}' :: rest) =
            ind m ++ ('"' :: (escList k.data ++ '"' :: (':' :: (' ' ::
              (printp m v ++ '\n' :: (ind mo ++ '}' :: rest)))))) := by
          simp [printpFields]
        rw [hfields]
        have hsk1 : skipWs (ind m ++ ('"' :: (escList k.data ++ '"' :: (':' :: (' ' ::
            (printp m v ++ '\n' :: (ind mo ++ '}' :: rest))))))) =
            '"' :: (escList k.data ++ '"' :: (':' :: (' ' ::
              (printp m v ++ '\n' :: (ind mo ++ '}' :: rest))))) := by
          rw [skipWs_ind, skipWs_cons_not _ (by decide)]
        have hpsb := parseStringBody_escList k.data
          ((escList k.data ++ '"' :: (':' :: (' ' ::
            (printp m v ++ '\n' :: (ind mo ++ '}' :: rest))))).length + 1)
          (':' :: (' ' :: (printp m v ++ '\n' :: (ind mo ++ '}' :: rest))))
          (by have := escList_length_ge k.data
              simp only [List.length_append, List.length_cons]
              omega)
        have hsk2 : skipWs (':' :: (' ' :: (printp m v ++ '\n' :: (ind mo ++ '}' :: rest)))) =
            ':' :: (' ' :: (printp m v ++ '\n' :: (ind mo ++ '}' :: rest))) :=
          skipWs_cons_not _ (by decide)
        have hskv : skipWs (' ' :: (printp m v ++ '\n' :: (ind mo ++ '}' :: rest))) =
            printp m v ++ '\n' :: (ind mo ++ '}' :: rest) := by
          rw [skipWs_cons_ws _ (by decide), hcl, List.cons_append, skipWs_cons_not _ hws]
        have hA := ihA m v ('\n' :: (ind mo ++ '}' :: rest)) hszv (numSafe_cons _ _ (by decide))
        have hsk3 : skipWs ('\n' :: (ind mo ++ '}' :: rest)) = '}' :: rest := by
          rw [skipWs_cons_ws _ (by decide), skipWs_ind, skipWs_cons_not _ (by decide)]
        simp [parseObjFields, hsk1, hpsb, hsk2, hskv, hA, hsk3, String_mk_data,
          -List.length_append, -List.length_cons]
      | cons kv' fs' =>
        obtain ⟨k', v'⟩ := kv'
        have hszv : jsize v ≤ f := by
          simp only [fsize] at hsz
          omega
        have hszfs : fsize ((k', v') :: fs') ≤ f := by
          have h0 := jsize_pos v
          simp only [fsize] at hsz ⊢
          omega
        obtain ⟨c, l, hcl, hh⟩ := printp_head m v
        obtain ⟨hws, _, _⟩ := head_facts hh
        have hfields : printpFields m ((k, v) :: (k', v') :: fs') ++
            '\n' :: (ind mo ++ '}' :: rest) =
            ind m ++ ('"' :: (escList k.data ++ '"' :: (':' :: (' ' ::
              (printp m v ++ ',' :: '\n' :: (printpFields m ((k', v') :: fs') ++
                '\n' :: (ind mo ++ '}' :: rest))))))) := by
          simp [printpFields]
        rw [hfields]
        have hsk1 : skipWs (ind m ++ ('"' :: (escList k.data ++ '"' :: (':' :: (' ' ::
            (printp m v ++ ',' :: '\n' :: (printpFields m ((k', v') :: fs') ++
              '\n' :: (ind mo ++ '}' :: rest)))))))) =
            '"' :: (escList k.data ++ '"' :: (':' :: (' ' ::
              (printp m v ++ ',' :: '\n' :: (printpFields m ((k', v') :: fs') ++
                '\n' :: (ind mo ++ '}' :: rest)))))) := by
          rw [skipWs_ind, skipWs_cons_not _ (by decide)]
        have hpsb := parseStringBody_escList k.data
          ((escList k.data ++ '"' :: (':' :: (' ' ::
            (printp m v ++ ',' :: '\n' :: (printpFields m ((k', v') :: fs') ++
              '\n' :: (ind mo ++ '}' :: rest)))))).length + 1)
          (':' :: (' ' :: (printp m v ++ ',' :: '\n' ::
            (printpFields m ((k', v') :: fs') ++ '\n' :: (ind mo ++ '}' :: rest)))))
          (by have := escList_length_ge k.data
              simp only [List.length_append, List.length_cons]
              omega)
        have hsk2 : skipWs (':' :: (' ' :: (printp m v ++ ',' :: '\n' ::
            (printpFields m ((k', v') :: fs') ++ '\n' :: (ind mo ++ '}' :: rest))))) =
            ':' :: (' ' :: (printp m v ++ ',' :: '\n' ::
              (printpFields m ((k', v') :: fs') ++ '\n' :: (ind mo ++ '}' :: rest)))) :=
          skipWs_cons_not _ (by decide)
        have hskv : skipWs (' ' :: (printp m v ++ ',' :: '\n' ::
            (printpFields m ((k', v') :: fs') ++ '\n' :: (ind mo ++ '}' :: rest)))) =
            printp m v ++ ',' :: '\n' ::
              (printpFields m ((k', v') :: fs') ++ '\n' :: (ind mo ++ '}' :: rest)) := by
          rw [skipWs_cons_ws _ (by decide), hcl, List.cons_append, skipWs_cons_not _ hws]
        have hA := ihA m v (',' :: '\n' :: (printpFields m ((k', v') :: fs') ++
          '\n' :: (ind mo ++ '}' :: rest))) hszv (numSafe_cons _ _ (by decide))
        have hsk3 : skipWs (',' :: '\n' :: (printpFields m ((k', v') :: fs') ++
            '\n' :: (ind mo ++ '}' :: rest))) =
            ',' :: '\n' :: (printpFields m ((k', v') :: fs') ++
              '\n' :: (ind mo ++ '}' :: rest)) :=
          skipWs_cons_not _ (by decide)
        have hC : parseObjFields f ('\n' :: (printpFields m ((k', v') :: fs') ++
            '\n' :: (ind mo ++ '}' :: rest))) = some ((k', v') :: fs', rest) := by
          rw [parseObjFields_ws (by decide)]
          exact ihC m mo k' v' fs' rest hszfs
        simp [parseObjFields, hsk1, hpsb, hsk2, hskv, hA, hsk3, hC, String_mk_data,
          -List.length_append, -List.length_cons]

theorem from_str_to_string (v : Json) : from_str (to_string v) = some v := by
  have hdata : (to_string v).data = printc v := rfl
  unfold from_str
  rw [hdata]
  obtain ⟨c, l, hcl, hh⟩ := printc_head v
  obtain ⟨hws, _, _⟩ := head_facts hh
  have hskip : skipWs (printc v) = printc v := by
    rw [hcl]
    exact skipWs_cons_not _ hws
  rw [hskip]
  have hsz : jsize v ≤ 2 * (printc v).length + 2 := by
    have h := ((size_bound (jsize v)).1 v (le_refl _)).1
    omega
  have hmain := (parse_printc_master (2 * (printc v).length + 2)).1 v [] hsz rfl
  rw [List.append_nil] at hmain
  rw [hmain]
  rfl

theorem from_str_pretty (v : Json) : from_str (pretty_print_json v) = some v := by
  have hdata : (pretty_print_json v).data = printp 0 v := rfl
  unfold from_str
  rw [hdata]
  obtain ⟨c, l, hcl, hh⟩ := printp_head 0 v
  obtain ⟨hws, _, _⟩ := head_facts hh
  have hskip : skipWs (printp 0 v) = printp 0 v := by
    rw [hcl]
    exact skipWs_cons_not _ hws
  rw [hskip]
  have hsz : jsize v ≤ 2 * (printp 0 v).length + 2 := by
    have h := ((size_bound (jsize v)).1 v (le_refl _)).2 0
    omega
  have hmain := (parse_printp_master (2 * (printp 0 v).length + 2)).1 0 v [] hsz rfl
  rw [List.append_nil] at hmain
  rw [hmain]
  rfl

/-- C7: output formatting round-trips the server's JSON faithfully — for
every JSON value `v` (in the embedding: integer numbers, all escapes),
parsing the compact serialization printed in json mode yields `v` again,
and parsing the pretty-printed serialization printed in pretty mode
yields `v` again. -/
theorem C7_output_roundtrip (v : Json) :
    from_str (to_string v) = some v ∧ from_str (pretty_print_json v) = some v :=
  ⟨from_str_to_string v, from_str_pretty v⟩

end Apiary
